import Mathlib

/-!
Lux memory tracker (`src/core/memory_tracker.cpp`)

A shallow embedding of the debug allocation registry `Lux::MemoryTracker`
and of its report functions, followed by theorems about them.

Conventions of the embedding

* A pointer (`void*`, `const char*`) is a natural number, `0` being `NULL`.
* The text a `const char*` points to is read through a memory parameter
  `mem : Nat → List Nat` giving the bytes (before the terminating NUL) stored
  at an address.
* `intptr_t` sizes and the running total are mathematical integers: their
  signed overflow is undefined in C++ and the declaration of
  `m_allocated_memory` is in the header. The allocation counter is the
  `uint32_t` of the source and wraps modulo `2^32`.
* The spin lock is left out of the state: every function is modelled as it
  runs once it holds the lock, one call at a time. Where the report functions
  take and release the lock relative to the lines they log is modelled by
  their sequences of `Event`s.
* A report is the list of the lines it hands to `memTrackerLog`, each line
  being the format it uses together with the arguments of that format.
-/

namespace Lux

/-! ## Ordered container -/

namespace Map

variable {K V : Type}

/-- Key equivalence induced by the ordering: neither key is below the other. -/
def equiv (lt : K → K → Bool) (a b : K) : Bool := !lt a b && !lt b a

/-- Modelled from the spec: `map::find` of `core/map.h`, which is not part of
the source. The container is an ordered map (its iteration follows the
ordering of the keys and it holds at most one node per key); it is
represented by the list of its nodes in iteration order, and `find` returns
the value of the node whose key is equivalent to `k`, if there is one. -/
def find (lt : K → K → Bool) (k : K) : List (K × V) → Option V
  | [] => none
  | (k', v) :: rest => if equiv lt k k' then some v else find lt k rest

/-- Modelled from the spec: `map::insert` of `core/map.h`. The node is placed
at its position in the ordering; when a node with an equivalent key is
already there the container is left as it is (at most one node per key). -/
def insert (lt : K → K → Bool) (k : K) (v : V) : List (K × V) → List (K × V)
  | [] => [(k, v)]
  | (k', v') :: rest =>
    if lt k k' then (k, v) :: (k', v') :: rest
    else if lt k' k then (k', v') :: insert lt k v rest
    else (k', v') :: rest

/-- Modelled from the spec: `map::erase(it)` of `core/map.h` for the iterator
`it` returned by `find k`: the node found for `k` is removed. -/
def erase (lt : K → K → Bool) (k : K) : List (K × V) → List (K × V)
  | [] => []
  | (k', v) :: rest => if equiv lt k k' then rest else (k', v) :: erase lt k rest

/-- Modelled from the spec: assignment through the iterator returned by
`find k`, as in `rit.second() += size`: `f` is applied to the value of the
node found for `k`. -/
def modify (lt : K → K → Bool) (k : K) (f : V → V) : List (K × V) → List (K × V)
  | [] => []
  | (k', v) :: rest =>
    if equiv lt k k' then (k', f v) :: rest else (k', v) :: modify lt k f rest

end Map

/-- Built-in `<` on pointers and on `uint32_t` keys. -/
def ptrLt (a b : Nat) : Bool := decide (a < b)

/-! ## Entry records and the tracker -/

/-- Modelled from the spec: the record `MemoryTracker::Entry` of
`core/memory_tracker.h`, which is not part of the source: origin file
(a `const char*`, `0` when unknown), origin line, byte size, allocation id and
mark generation. -/
structure Entry where
  m_file : Nat
  m_line : Int
  m_alloc_id : Nat
  m_size : Int
  m_mark : Nat
deriving DecidableEq, Repr

/-- The table `EntryTable`: nodes (address, entry) in address order. -/
abbrev EntryTable := List (Nat × Entry)

/-- State of the tracker: the members of `MemoryTracker` and the static
counter `s_alloc_counter`. -/
structure MemoryTracker where
  m_map : EntryTable
  m_mark : Nat
  m_allocated_memory : Int
  s_alloc_counter : Nat
deriving DecidableEq, Repr

/-- The constructor `MemoryTracker::MemoryTracker()` together with the
initialiser `s_alloc_counter = 0`. -/
def MemoryTracker.new : MemoryTracker :=
  { m_map := [], m_mark := 0, m_allocated_memory := 0, s_alloc_counter := 0 }

/-- Modelled from the spec: `MemoryTracker::getAllocID` of the header, the
allocation-id generator: it returns the current value of the `uint32_t`
counter `s_alloc_counter` and advances the counter by one. -/
def getAllocID (counter : Nat) : Nat × Nat := (counter, (counter + 1) % 2 ^ 32)

/-- Modelled from the spec: the constructor `Entry(file, line, size)` of the
header: it takes the next allocation id and starts with mark generation 0.
The second component is the advanced counter. -/
def Entry.create (file : Nat) (line : Int) (size : Int) (counter : Nat) : Entry × Nat :=
  let r := getAllocID counter
  ({ m_file := file, m_line := line, m_alloc_id := r.1, m_size := size, m_mark := 0 }, r.2)

/-- Modelled from the spec: `Entry::mark` of the header, called by `markAll`:
the entry is stamped with the tracker's current generation value. -/
def Entry.mark (generation : Nat) (e : Entry) : Entry := { e with m_mark := generation }

/-- Modelled from the spec: the accessor `Entry::getMark` of the header: the
mark generation last stamped on the entry. -/
def Entry.getMark (e : Entry) : Nat := e.m_mark

/-- `MemoryTracker::add`. -/
def MemoryTracker.add (t : MemoryTracker) (p : Nat) (size : Int) (file : Nat) (line : Int) :
    MemoryTracker :=
  if p = 0 then t
  else
    let r := Entry.create file line size t.s_alloc_counter
    { t with
      m_map := Map.insert ptrLt p r.1 t.m_map
      m_allocated_memory := t.m_allocated_memory + size
      s_alloc_counter := r.2 }

/-- `MemoryTracker::remove`. The second component counts the failures of the
`ASSERT` raised by the call. -/
def MemoryTracker.remove (t : MemoryTracker) (p : Nat) : MemoryTracker × Nat :=
  if p = 0 then (t, 0)
  else
    match Map.find ptrLt p t.m_map with
    | none => (t, 1)
    | some e =>
      ({ t with
         m_allocated_memory := t.m_allocated_memory - e.m_size
         m_map := Map.erase ptrLt p t.m_map }, 0)

/-- `MemoryTracker::markAll`. -/
def MemoryTracker.markAll (t : MemoryTracker) : MemoryTracker :=
  { t with
    m_map := t.m_map.map (fun n => (n.1, Entry.mark t.m_mark n.2))
    m_mark := t.m_mark + 1 }

/-! ## Sequences of calls -/

/-- A call made on the tracker by its collaborators. -/
inductive Op where
  | add (p : Nat) (size : Int) (file : Nat) (line : Int)
  | remove (p : Nat)
  | markAll
deriving DecidableEq, Repr

/-- Runs one call; the second component counts the `ASSERT` failures of the
call. -/
def MemoryTracker.step (t : MemoryTracker) : Op → MemoryTracker × Nat
  | .add p size file line => (t.add p size file line, 0)
  | .remove p => t.remove p
  | .markAll => (t.markAll, 0)

/-- Runs a sequence of calls in order. -/
def MemoryTracker.run (t : MemoryTracker) : List Op → MemoryTracker
  | [] => t
  | op :: ops => MemoryTracker.run (t.step op).1 ops

/-- The address has a live entry (`m_map.find(p) != m_map.end()`). -/
def MemoryTracker.live (t : MemoryTracker) (p : Nat) : Bool :=
  (Map.find ptrLt p t.m_map).isSome

/-- A call is matched in state `t`: a non-null `add` is for an address that is
not live, a non-null `remove` is for an address that is live. -/
def Op.matched (t : MemoryTracker) : Op → Bool
  | .add p _ _ _ => p = 0 || !t.live p
  | .remove p => p = 0 || t.live p
  | .markAll => true

/-- Every call of the sequence is matched in the state it is made in. -/
def Matched (t : MemoryTracker) : List Op → Bool
  | [] => true
  | op :: ops => op.matched t && Matched (t.step op).1 ops

/-- The call is an `add` or a `remove`. -/
def Op.isAllocOrFree : Op → Bool
  | .add _ _ _ _ => true
  | .remove _ => true
  | .markAll => false

/-- The call is a successful `add` (non-null address). -/
def Op.isSuccessfulAdd : Op → Bool
  | .add p _ _ _ => p ≠ 0
  | _ => false

/-- The allocation ids given to the entries constructed by the successful
`add` calls of the sequence, in call order. -/
def assignedIds (t : MemoryTracker) : List Op → List Nat
  | [] => []
  | .add p size file line :: ops =>
    if p = 0 then assignedIds t ops
    else (Entry.create file line size t.s_alloc_counter).1.m_alloc_id ::
      assignedIds (t.add p size file line) ops
  | op :: ops => assignedIds (t.step op).1 ops

/-- Sum of `size` over the entries of the table. -/
def sumSizes (m : EntryTable) : Int := (m.map fun n => n.2.m_size).sum

/-! ## Group keys of the aggregated reports -/

/-- The libc function `strcmp` on the bytes of two NUL-terminated strings:
negative, zero or positive as the first is below, equal to or above the
second in the lexicographic order of unsigned bytes. -/
def strcmp : List Nat → List Nat → Int
  | [], [] => 0
  | [], _ :: _ => -1
  | _ :: _, [] => 1
  | a :: as, b :: bs => if a < b then -1 else if b < a then 1 else strcmp as bs

/-- The key `struct FileLineReport`. -/
structure FileLineReport where
  file : Nat
  line : Int
deriving DecidableEq, Repr

/-- `FileLineReport::operator ==`. -/
def FileLineReport.eq (a other : FileLineReport) : Bool :=
  a.file == other.file && a.line == other.line

/-- `FileLineReport::operator !=`. -/
def FileLineReport.ne (a other : FileLineReport) : Bool := !(a.eq other)

/-- `FileLineReport::operator <`. -/
def FileLineReport.lt (mem : Nat → List Nat) (a other : FileLineReport) : Bool :=
  if a.file = 0 then other.file != 0
  else if other.file = 0 then false
  else
    let cmp := strcmp (mem a.file) (mem other.file)
    if cmp ≠ 0 then decide (cmp < 0)
    else decide (a.line < other.line)

/-- `FileLineReport::operator >`. -/
def FileLineReport.gt (mem : Nat → List Nat) (a other : FileLineReport) : Bool :=
  if a.file = 0 then other.file != 0
  else if other.file = 0 then false
  else
    let cmp := strcmp (mem a.file) (mem other.file)
    if cmp ≠ 0 then decide (cmp > 0)
    else decide (a.line > other.line)

/-! ## Reports -/

/-- A line handed to `memTrackerLog`: the format and its arguments. A
`const char*` argument of `%s` is given as the text it points to, `none` for
`NULL`. -/
inductive LogLine where
  /-- The text "MemoryTracker Detected memory leaks!". -/
  | detected
  /-- The text "Dumping objects ->". -/
  | dumping
  /-- The text "MemoryTracker No leaks detected!". -/
  | noLeaks
  /-- The text "Object dump complete." (indented in the per-entry reports). -/
  | complete
  /-- The format "[%s(%d): ]{%d} normal block at %p, %d bytes long.". -/
  | blockAt (file : Option (List Nat)) (line : Int) (allocID : Nat) (adr : Nat) (size : Int)
  /-- The format "[%s(%d): ]{%d} normal block, %d bytes long.". -/
  | block (file : Option (List Nat)) (line : Int) (allocID : Nat) (size : Int)
  /-- The format "Data: <%s>" followed by one " %.2X" per byte. -/
  | data (ascii : List Nat) (hex : List Nat)
  /-- The formats "%30s(%5d) : " followed by the size fields. -/
  | perFileLine (file : List Nat) (line : Int) (fields : List Int)
  /-- The formats "%30s : " followed by the size fields. -/
  | perFile (file : Option (List Nat)) (fields : List Int)
  /-- The format "Size of all objects: %u". -/
  | sizeOfAll (size : Nat)
deriving DecidableEq, Repr

/-- The text a `const char*` points to, `none` for `NULL`. -/
def cstr (mem : Nat → List Nat) (p : Nat) : Option (List Nat) :=
  if p = 0 then none else some (mem p)

/-- The bytes of the literal "unknown". -/
def unknownLabel : List Nat := [117, 110, 107, 110, 111, 119, 110]

/-- The size arguments of the aggregated reports, as chosen by the
`if(size >= 1000000) ... else if(size >= 1000) ... else ...` cascade that
`dumpTruncatedPerFileLine` and `dumpTruncatedPerFile` both contain. The C
operators `/` and `%` truncate towards zero. -/
def sizeFields (size : Int) : List Int :=
  if size ≥ 1000000 then
    [size.tdiv 1000000, (size.tmod 1000000).tdiv 1000, Int.land size 1000]
  else if size ≥ 1000 then
    [size.tdiv 1000, size.tmod 1000]
  else
    [size]

/-- The casts `(int32_t)size` and `(int)size` of an `intptr_t`: the value
reduced to the signed 32-bit range. -/
def toInt32 (x : Int) : Int := (x + 2 ^ 31) % 2 ^ 32 - 2 ^ 31

/-- The preview line built from the first `str_len = Math::min(16, (int)size)`
bytes at `adr`; `heap` gives the byte stored at an address and `%s` stops at
the first zero byte of the zero-filled buffer. When `str_len` is negative it
is handed to `memcpy`, which takes it as an unsigned length far beyond the
17 bytes of `asci_buf`: the call has no defined result and the function does
not go on, which is `none`. -/
def dataLine (heap : Nat → Nat) (adr : Nat) (size : Int) : Option LogLine :=
  let str_len := min 16 (toInt32 size)
  if str_len < 0 then none
  else
    let bytes := (List.range str_len.toNat).map fun j => heap (adr + j)
    some (.data (bytes.takeWhile fun b => b != 0) bytes)

/-- The entry line `dumpUnmarked` and `dumpDetailed` print for a node. -/
def blockAtLine (mem : Nat → List Nat) (n : Nat × Entry) : LogLine :=
  .blockAt (cstr mem n.2.m_file) n.2.m_line n.2.m_alloc_id n.1 n.2.m_size

/-- The body of the loop over entries of `dumpDetailed` and `dumpUnmarked`,
run over the entries it does not skip: the entry line is logged, then the
preview line is built and logged. The first component holds the lines logged;
the second tells whether the loop ran to its end, which it does not when a
preview has no defined result: the entry line of that entry is then the last
line logged. -/
def entryBlocks (mem : Nat → List Nat) (heap : Nat → Nat) : EntryTable → List LogLine × Bool
  | [] => ([], true)
  | n :: rest =>
    match dataLine heap n.1 n.2.m_size with
    | none => ([blockAtLine mem n], false)
    | some d =>
      (blockAtLine mem n :: d :: (entryBlocks mem heap rest).1, (entryBlocks mem heap rest).2)

/-- Whether `MemoryTracker::dumpDetailed` runs to its end. -/
def MemoryTracker.dumpDetailedReturns (mem : Nat → List Nat) (heap : Nat → Nat)
    (t : MemoryTracker) : Bool :=
  (entryBlocks mem heap t.m_map).2

/-- `MemoryTracker::dumpDetailed`: the lines it logs. -/
def MemoryTracker.dumpDetailed (mem : Nat → List Nat) (heap : Nat → Nat)
    (t : MemoryTracker) : List LogLine :=
  let count := t.m_map.length
  (if count ≠ 0 then [.detected, .dumping] else [.noLeaks]) ++
  (entryBlocks mem heap t.m_map).1 ++
  (if (entryBlocks mem heap t.m_map).2 = true ∧ count ≠ 0 then [.complete] else [])

/-- The container `alloc_order_map` filled by the first loop of
`dumpSortedByAllocationOrder`: every entry of the table is inserted under its
allocation id, in the iteration order of the table. -/
def allocOrderMap (m : EntryTable) : List (Nat × Entry) :=
  m.foldl (fun alloc_order_map n => Map.insert ptrLt n.2.m_alloc_id n.2 alloc_order_map) []

/-- `MemoryTracker::dumpSortedByAllocationOrder`. -/
def MemoryTracker.dumpSortedByAllocationOrder (mem : Nat → List Nat)
    (t : MemoryTracker) : List LogLine :=
  let count := t.m_map.length
  (if count ≠ 0 then [.detected, .dumping] else [.noLeaks]) ++
  ((allocOrderMap t.m_map).map fun n =>
    .block (cstr mem n.2.m_file) n.2.m_line n.2.m_alloc_id n.2.m_size) ++
  (if count ≠ 0 then [.complete] else [])

/-- The find-then-add-or-insert loop shared by the two aggregated reports:
each entry's size is added to the group found for its key, or a new group is
inserted when there is none. -/
def aggregate {K : Type} (lt : K → K → Bool) (key : Entry → K) (m : EntryTable) :
    List (K × Int) :=
  m.foldl (fun report_map n =>
    match Map.find lt (key n.2) report_map with
    | some _ => Map.modify lt (key n.2) (fun s => s + n.2.m_size) report_map
    | none => Map.insert lt (key n.2) n.2.m_size report_map) []

/-- The container `report_map` (a `file_line_map`) built by the first loop of
`dumpTruncatedPerFileLine`. -/
def fileLineReportMap (mem : Nat → List Nat) (m : EntryTable) : List (FileLineReport × Int) :=
  aggregate (FileLineReport.lt mem) (fun e => { file := e.m_file, line := e.m_line }) m

/-- `MemoryTracker::dumpTruncatedPerFileLine`. -/
def MemoryTracker.dumpTruncatedPerFileLine (mem : Nat → List Nat)
    (t : MemoryTracker) : List LogLine :=
  [.dumping] ++
  ((fileLineReportMap mem t.m_map).map fun g =>
    .perFileLine (if g.1.file ≠ 0 then mem g.1.file else unknownLabel) g.1.line
      (sizeFields g.2)) ++
  [.complete]

/-- The container `report_map` (a `file_map`, keyed by the `const char*`
itself) built by the first loop of `dumpTruncatedPerFile`. -/
def fileReportMap (m : EntryTable) : List (Nat × Int) :=
  aggregate ptrLt (fun e => e.m_file) m

/-- `MemoryTracker::dumpTruncatedPerFile`. -/
def MemoryTracker.dumpTruncatedPerFile (mem : Nat → List Nat)
    (t : MemoryTracker) : List LogLine :=
  [.dumping] ++
  ((fileReportMap t.m_map).map fun g => .perFile (cstr mem g.1) (sizeFields g.2)) ++
  [.complete]

/-- The entries that `dumpUnmarked` does not skip: those whose mark is
neither 0 nor the current value of `m_mark`. -/
def MemoryTracker.unmarked (t : MemoryTracker) : EntryTable :=
  t.m_map.filter fun n => !(0 == n.2.getMark || t.m_mark == n.2.getMark)

/-- The accumulator `std::size_t size` of `dumpUnmarked` after a loop that ran
to its end, for a `size_t` of `w` bits. -/
def MemoryTracker.unmarkedSize (w : Nat) (t : MemoryTracker) : Nat :=
  t.unmarked.foldl (fun size n => ((size : Int) + n.2.m_size).emod (2 ^ w) |>.toNat) 0

/-- Whether `MemoryTracker::dumpUnmarked` runs to its end. -/
def MemoryTracker.dumpUnmarkedReturns (mem : Nat → List Nat) (heap : Nat → Nat)
    (t : MemoryTracker) : Bool :=
  (entryBlocks mem heap t.unmarked).2

/-- `MemoryTracker::dumpUnmarked`, for a `size_t` of `w` bits: the lines it
logs. -/
def MemoryTracker.dumpUnmarked (w : Nat) (mem : Nat → List Nat) (heap : Nat → Nat)
    (t : MemoryTracker) : List LogLine :=
  [.dumping] ++
  (entryBlocks mem heap t.unmarked).1 ++
  (if (entryBlocks mem heap t.unmarked).2 = true ∧ 0 < t.unmarkedSize w then
    [.sizeOfAll (t.unmarkedSize w)]
  else [])

/-- The entry lines of a report: the lines that describe one block. -/
def entryLines (ls : List LogLine) : List LogLine :=
  ls.filter fun l =>
    match l with
    | .blockAt _ _ _ _ _ => true
    | .block _ _ _ _ => true
    | _ => false

/-- Number of successful `add` calls in the sequence. -/
def successfulAdds (ops : List Op) : Nat := (ops.filter Op.isSuccessfulAdd).length

/-- The sequence of `n` calls `add(1, ...)`, `add(2, ...)`, ..., `add(n, ...)`,
one byte each, on pairwise distinct non-null addresses. -/
def distinctAdds (n : Nat) : List Op := (List.range n).map fun i => Op.add (i + 1) 1 0 0

/-- Example memory of file names: "a.cpp" at address 256, "b.cpp" at address
272 and a second copy of "a.cpp" at address 288. -/
def exampleNames (p : Nat) : List Nat :=
  if p = 256 then [97, 46, 99, 112, 112]
  else if p = 272 then [98, 46, 99, 112, 112]
  else if p = 288 then [97, 46, 99, 112, 112]
  else []

/-- Example sequence of matched calls: two allocations at the same call site,
the release of the first, a call with a null address and a third allocation. -/
def exampleCalls : List Op :=
  [.add 4096 100 256 10, .add 8192 200 256 10, .remove 4096, .add 0 7 0 0,
   .add 12288 50 272 5]

/-- Example: the allocations (100, "a.cpp", 10), (200, "a.cpp", 10) and
(50, "b.cpp", 5). -/
def threeAllocations : List Op :=
  [.add 4096 100 256 10, .add 8192 200 256 10, .add 12288 50 272 5]

/-- Example: two allocations without a file, recorded with the lines 1 and 2. -/
def unknownOrigins : List Op := [.add 4096 100 0 1, .add 8192 50 0 2]

/-- Example: three allocations whose file pointers are 256 ("a.cpp"),
288 (the second copy of "a.cpp") and 272 ("b.cpp"). -/
def sameNameTwice : List Op :=
  [.add 4096 100 256 10, .add 8192 200 288 20, .add 12288 50 272 5]

/-- Example state: one live entry of 8 bytes at address 8192. -/
def oneLive : MemoryTracker := MemoryTracker.new.add 8192 8 272 5

/-- Example state whose three entries, in address order, carry the allocation
ids 5, 2 and 9. -/
def idsFiveTwoNine : MemoryTracker :=
  { m_map :=
      [(4096, { m_file := 0, m_line := 0, m_alloc_id := 5, m_size := 10, m_mark := 0 }),
       (8192, { m_file := 0, m_line := 0, m_alloc_id := 2, m_size := 20, m_mark := 0 }),
       (12288, { m_file := 0, m_line := 0, m_alloc_id := 9, m_size := 30, m_mark := 0 })]
    m_mark := 0
    m_allocated_memory := 60
    s_alloc_counter := 10 }

/-- Sum of the byte totals of the groups of an aggregated report. -/
def groupTotal {K : Type} (report_map : List (K × Int)) : Int :=
  (report_map.map Prod.snd).sum

/-- The order of the specification on group keys, following its words: `a`
is below `b` when the file of `a` precedes the file of `b` (a null file
before every non-null file, otherwise by string comparison), or when the
files are the same (both null, or equal strings) and `a.line < b.line`. -/
def FileLineReport.naturalLt (mem : Nat → List Nat) (a b : FileLineReport) : Bool :=
  let precedes :=
    (a.file == 0 && b.file != 0) ||
      (a.file != 0 && b.file != 0 && decide (strcmp (mem a.file) (mem b.file) < 0))
  let same :=
    (a.file == 0 && b.file == 0) ||
      (a.file != 0 && b.file != 0 && decide (mem a.file = mem b.file))
  precedes || (same && decide (a.line < b.line))

/-- Example: an allocation of 100 bytes and a checkpoint, then a block of
2 GiB (2147483648 bytes) at address 8192, a block of 200 bytes above it at
address 4294967296, and a second checkpoint. -/
def largeBlockBetweenCheckpoints : List Op :=
  [.add 4096 100 256 10, .markAll, .add 8192 2147483648 272 5, .add 4294967296 200 272 7,
   .markAll]

/-- Example: an allocation, a checkpoint, a second allocation and a second
checkpoint. -/
def twoCheckpoints : List Op :=
  [.add 4096 100 256 10, .markAll, .add 8192 200 272 5, .markAll]

/-- The fields of a node that `markAll` is not to change: address, origin
file, origin line, size and allocation id. -/
def nodeOrigin (n : Nat × Entry) : Nat × Nat × Int × Int × Nat :=
  (n.1, n.2.m_file, n.2.m_line, n.2.m_size, n.2.m_alloc_id)

/-- What a report function does, in program order, as far as the lock and
the log sink are concerned. -/
inductive Event where
  /-- The spin lock is taken. -/
  | acquire
  /-- The spin lock is released. -/
  | release
  /-- A line is formatted and handed to `memTrackerLog`. -/
  | log (line : LogLine)
deriving DecidableEq, Repr

/-- Modelled from the spec: the scoped guard `MT::SpinLock lock(m_spin_mutex)`
of `core/spin_mutex.h`, which is not part of the source: the lock is taken
where the guard is declared and released at the end of the enclosing block,
`body` being what the block does in between. -/
def withSpinLock (body : List Event) : List Event := .acquire :: (body ++ [.release])

/-- Events of `MemoryTracker::dumpDetailed`: the guard is the first statement
of the function body, and it is released when the function returns. -/
def MemoryTracker.dumpDetailedEvents (mem : Nat → List Nat) (heap : Nat → Nat)
    (t : MemoryTracker) : List Event :=
  .acquire :: ((t.dumpDetailed mem heap).map .log ++
    (if t.dumpDetailedReturns mem heap = true then [.release] else []))

/-- Events of `MemoryTracker::dumpSortedByAllocationOrder`: the guard is the
first statement of the function body. -/
def MemoryTracker.dumpSortedByAllocationOrderEvents (mem : Nat → List Nat)
    (t : MemoryTracker) : List Event :=
  withSpinLock ((t.dumpSortedByAllocationOrder mem).map .log)

/-- Events of `MemoryTracker::dumpTruncatedPerFileLine`: the heading is logged
first, the guard lives in the inner block that fills `report_map`, and the
group lines are logged after that block. -/
def MemoryTracker.dumpTruncatedPerFileLineEvents (mem : Nat → List Nat)
    (t : MemoryTracker) : List Event :=
  [.log .dumping] ++ withSpinLock [] ++
  ((fileLineReportMap mem t.m_map).map fun g =>
    .log (.perFileLine (if g.1.file ≠ 0 then mem g.1.file else unknownLabel) g.1.line
      (sizeFields g.2))) ++
  [.log .complete]

/-- Events of `MemoryTracker::dumpTruncatedPerFile`: as for the report per
file and line. -/
def MemoryTracker.dumpTruncatedPerFileEvents (mem : Nat → List Nat)
    (t : MemoryTracker) : List Event :=
  [.log .dumping] ++ withSpinLock [] ++
  ((fileReportMap t.m_map).map fun g => .log (.perFile (cstr mem g.1) (sizeFields g.2))) ++
  [.log .complete]

/-- The lines handed to the log sink, in order. -/
def loggedLines : List Event → List LogLine
  | [] => []
  | .log l :: es => l :: loggedLines es
  | _ :: es => loggedLines es

/-- The lines handed to the log sink while the lock is held; `held` tells
whether the lock is held before the first event. -/
def linesUnderLock (held : Bool) : List Event → List LogLine
  | [] => []
  | .acquire :: es => linesUnderLock true es
  | .release :: es => linesUnderLock false es
  | .log l :: es => if held then l :: linesUnderLock held es else linesUnderLock held es

/-- The running total agrees with the table. -/
def TotalOk (t : MemoryTracker) : Prop := t.m_allocated_memory = sumSizes t.m_map

/-! # Theorems -/

/-! ## The entry table: lookups, insertion and erasure -/

theorem equiv_ptrLt (a b : Nat) : Map.equiv ptrLt a b = decide (a = b) := by
  unfold Map.equiv ptrLt
  by_cases h : a = b
  · subst h; simp
  · rcases Nat.lt_or_gt_of_ne h with h1 | h1
    · simp [h, h1]
    · simp [h, h1, Nat.lt_asymm h1]

theorem find_none_erase_insert {V : Type} (p : Nat) (v : V) (m : List (Nat × V))
    (h : Map.find ptrLt p m = none) : Map.erase ptrLt p (Map.insert ptrLt p v m) = m := by
  induction m with
  | nil => simp [Map.insert, Map.erase, equiv_ptrLt]
  | cons n rest ih =>
    obtain ⟨k, w⟩ := n
    simp only [Map.find, equiv_ptrLt] at h
    by_cases hk : p = k
    · simp [hk] at h
    · simp only [hk, decide_False, Bool.false_eq_true, if_false] at h
      simp only [Map.insert]
      by_cases h1 : ptrLt p k = true
      · simp [h1, Map.erase, equiv_ptrLt]
      · have h2 : ptrLt k p = true := by
          unfold ptrLt at h1 ⊢
          simp only [decide_eq_true_eq, not_lt] at h1 ⊢
          omega
        simp [h1, h2, Map.erase, equiv_ptrLt, hk, ih h]

theorem find_insert_of_ne {V : Type} (p q : Nat) (v : V) (m : List (Nat × V)) (hq : q ≠ p) :
    Map.find ptrLt q (Map.insert ptrLt p v m) = Map.find ptrLt q m := by
  induction m with
  | nil => simp [Map.insert, Map.find, equiv_ptrLt, hq]
  | cons n rest ih =>
    obtain ⟨k, w⟩ := n
    simp only [Map.insert]
    split
    · simp [Map.find, equiv_ptrLt, hq]
    · split
      · simp only [Map.find, ih]
      · rfl

theorem find_erase_of_ne {V : Type} (p q : Nat) (m : List (Nat × V)) (hq : q ≠ p) :
    Map.find ptrLt q (Map.erase ptrLt p m) = Map.find ptrLt q m := by
  induction m with
  | nil => rfl
  | cons n rest ih =>
    obtain ⟨k, w⟩ := n
    simp only [Map.erase, equiv_ptrLt]
    by_cases hk : p = k
    · subst hk
      simp [Map.find, equiv_ptrLt, hq]
    · simp [hk, Map.find, ih]

theorem sumSizes_insert (p : Nat) (e : Entry) (m : EntryTable)
    (h : Map.find ptrLt p m = none) :
    sumSizes (Map.insert ptrLt p e m) = sumSizes m + e.m_size := by
  induction m with
  | nil => simp [Map.insert, sumSizes]
  | cons n rest ih =>
    obtain ⟨k, w⟩ := n
    simp only [Map.find, equiv_ptrLt] at h
    by_cases hk : p = k
    · simp [hk] at h
    · simp only [hk, decide_False, Bool.false_eq_true, if_false] at h
      have ih' := ih h
      simp only [sumSizes] at ih' ⊢
      simp only [Map.insert]
      split
      · simp only [List.map_cons, List.sum_cons]; omega
      · split
        · simp only [List.map_cons, List.sum_cons, ih']; omega
        · rename_i h1 h2
          exfalso
          unfold ptrLt at h1 h2
          simp only [decide_eq_true_eq, not_lt] at h1 h2
          omega

theorem erase_eq_list_erase (p : Nat) (e : Entry) (m : EntryTable)
    (h : Map.find ptrLt p m = some e) : Map.erase ptrLt p m = m.erase (p, e) := by
  induction m with
  | nil => simp [Map.find] at h
  | cons n rest ih =>
    obtain ⟨k, w⟩ := n
    simp only [Map.find, equiv_ptrLt] at h
    simp only [Map.erase, equiv_ptrLt]
    by_cases hk : p = k
    · subst hk
      simp only [decide_True, if_true, Option.some.injEq] at h
      subst h
      simp
    · simp only [hk, decide_False, Bool.false_eq_true, if_false] at h ⊢
      rw [ih h, List.erase_cons_tail]
      simp
      intro h1
      exact absurd h1.symm hk

theorem find_some_mem (p : Nat) (e : Entry) (m : EntryTable)
    (h : Map.find ptrLt p m = some e) : (p, e) ∈ m := by
  induction m with
  | nil => simp [Map.find] at h
  | cons n rest ih =>
    obtain ⟨k, w⟩ := n
    simp only [Map.find, equiv_ptrLt] at h
    by_cases hk : p = k
    · subst hk
      simp only [decide_True, if_true, Option.some.injEq] at h
      subst h
      simp
    · simp only [hk, decide_False, Bool.false_eq_true, if_false] at h
      exact List.mem_cons_of_mem _ (ih h)

theorem sumSizes_erase (p : Nat) (e : Entry) (m : EntryTable)
    (h : Map.find ptrLt p m = some e) :
    sumSizes (Map.erase ptrLt p m) = sumSizes m - e.m_size := by
  induction m with
  | nil => simp [Map.find] at h
  | cons n rest ih =>
    obtain ⟨k, w⟩ := n
    simp only [Map.find, equiv_ptrLt] at h
    simp only [Map.erase, equiv_ptrLt]
    by_cases hk : p = k
    · subst hk
      simp only [decide_True, if_true, Option.some.injEq] at h
      subst h
      simp [sumSizes]
    · simp only [hk, decide_False, Bool.false_eq_true, if_false] at h ⊢
      have ih' := ih h
      simp only [sumSizes, List.map_cons, List.sum_cons] at ih' ⊢
      omega

theorem sumSizes_mark (g : Nat) (m : EntryTable) :
    sumSizes (m.map fun n => (n.1, Entry.mark g n.2)) = sumSizes m := by
  induction m with
  | nil => rfl
  | cons n rest ih =>
    simp only [sumSizes, List.map_cons, List.sum_cons] at ih ⊢
    rw [ih]
    rfl

/-! ## Claims on `add` and `remove` -/

theorem live_eq_false_iff (t : MemoryTracker) (p : Nat) :
    t.live p = false ↔ Map.find ptrLt p t.m_map = none := by
  unfold MemoryTracker.live
  cases Map.find ptrLt p t.m_map <;> simp

theorem find_insert_self {V : Type} (p : Nat) (v : V) (m : List (Nat × V))
    (h : Map.find ptrLt p m = none) : Map.find ptrLt p (Map.insert ptrLt p v m) = some v := by
  induction m with
  | nil => simp [Map.insert, Map.find, equiv_ptrLt]
  | cons n rest ih =>
    obtain ⟨k, w⟩ := n
    simp only [Map.find, equiv_ptrLt] at h
    by_cases hk : p = k
    · simp [hk] at h
    · simp only [hk, decide_False, Bool.false_eq_true, if_false] at h
      simp only [Map.insert]
      split
      · simp [Map.find, equiv_ptrLt]
      · split
        · simp [Map.find, equiv_ptrLt, hk, ih h]
        · rename_i h1 h2
          exfalso
          unfold ptrLt at h1 h2
          simp only [decide_eq_true_eq, not_lt] at h1 h2
          omega


theorem totalOk_step (t : MemoryTracker) (op : Op) (hm : op.matched t = true)
    (h : TotalOk t) : TotalOk (t.step op).1 := by
  unfold TotalOk at h ⊢
  cases op with
  | add p size file line =>
    simp only [MemoryTracker.step, MemoryTracker.add]
    by_cases hp : p = 0
    · simp [hp, h]
    · simp only [Op.matched, hp, decide_False, Bool.false_or, Bool.not_eq_true'] at hm
      simp only [hp, if_false]
      rw [sumSizes_insert _ _ _ ((live_eq_false_iff t p).1 hm), h]
      rfl
  | remove p =>
    simp only [MemoryTracker.step, MemoryTracker.remove]
    by_cases hp : p = 0
    · simp [hp, h]
    · simp only [hp, if_false]
      cases hf : Map.find ptrLt p t.m_map with
      | none => simpa using h
      | some e =>
        simp only
        rw [sumSizes_erase _ _ _ hf, h]
  | markAll =>
    simp only [MemoryTracker.step, MemoryTracker.markAll]
    rw [sumSizes_mark]
    exact h

theorem totalOk_run (ops : List Op) : ∀ (t : MemoryTracker), Matched t ops = true →
    TotalOk t → ∀ k, TotalOk (t.run (ops.take k)) := by
  induction ops with
  | nil => intro t _ h k; simpa [MemoryTracker.run] using h
  | cons op ops ih =>
    intro t hm h k
    simp only [Matched, Bool.and_eq_true] at hm
    cases k with
    | zero => simpa [MemoryTracker.run] using h
    | succ k =>
      simp only [List.take_succ_cons, MemoryTracker.run]
      exact ih _ hm.2 (totalOk_step t op hm.1 h) k

/-- C1. Total-bytes invariant: starting from the empty registry, after every
call of a sequence of calls without mismatches (every prefix of the
sequence), `m_allocated_memory` equals the sum of `size` over the entries
currently in the map. -/
theorem total_bytes_invariant (ops : List Op) (h : Matched MemoryTracker.new ops = true)
    (k : Nat) :
    (MemoryTracker.new.run (ops.take k)).m_allocated_memory =
      sumSizes (MemoryTracker.new.run (ops.take k)).m_map :=
  totalOk_run ops MemoryTracker.new h rfl k

theorem total_bytes_invariant_witness :
    Matched MemoryTracker.new exampleCalls = true ∧
      (MemoryTracker.new.run (exampleCalls.take 5)).m_allocated_memory = 250 ∧
      (MemoryTracker.new.run (exampleCalls.take 5)).m_allocated_memory =
        sumSizes (MemoryTracker.new.run (exampleCalls.take 5)).m_map :=
  ⟨by decide, by decide, total_bytes_invariant exampleCalls (by decide) 5⟩

/-- C2. Round trip: in every state, for a non-null address `p` that is not
live, `add(p, size, file, line)` followed by `remove(p)` raises no assertion,
restores the total of live bytes, leaves `p` absent and gives back the very
map it started from (every other entry unchanged). -/
theorem add_remove_round_trip (t : MemoryTracker) (p : Nat) (size : Int) (file : Nat)
    (line : Int) (hp : p ≠ 0) (hlive : t.live p = false) :
    ((t.add p size file line).remove p).2 = 0 ∧
      ((t.add p size file line).remove p).1.m_allocated_memory = t.m_allocated_memory ∧
      ((t.add p size file line).remove p).1.live p = false ∧
      ((t.add p size file line).remove p).1.m_map = t.m_map := by
  have hnone : Map.find ptrLt p t.m_map = none := (live_eq_false_iff t p).1 hlive
  have hfind : Map.find ptrLt p (t.add p size file line).m_map =
      some (Entry.create file line size t.s_alloc_counter).1 := by
    simp only [MemoryTracker.add, hp, if_false]
    exact find_insert_self p _ _ hnone
  have hmap : Map.erase ptrLt p (t.add p size file line).m_map = t.m_map := by
    simp only [MemoryTracker.add, hp, if_false]
    exact find_none_erase_insert p _ _ hnone
  have hsize : (t.add p size file line).m_allocated_memory = t.m_allocated_memory + size := by
    simp [MemoryTracker.add, hp]
  simp only [MemoryTracker.remove, hp, if_false, hfind, hmap, hsize, MemoryTracker.live, hnone]
  simp [Entry.create]

theorem add_remove_round_trip_witness :
    (4096 : Nat) ≠ 0 ∧ oneLive.live 4096 = false ∧
      ((oneLive.add 4096 100 256 10).remove 4096).2 = 0 ∧
      ((oneLive.add 4096 100 256 10).remove 4096).1.m_allocated_memory =
        oneLive.m_allocated_memory ∧
      ((oneLive.add 4096 100 256 10).remove 4096).1.live 4096 = false ∧
      ((oneLive.add 4096 100 256 10).remove 4096).1.m_map = oneLive.m_map :=
  ⟨by decide, by decide,
    add_remove_round_trip oneLive 4096 100 256 10 (by decide) (by decide)⟩

/-- C4. Mismatched free detection: for a non-null address `p`, `remove(p)`
raises the assertion if and only if `p` has no live entry, at most once per
call, and then the whole state is left as it was; when `p` is live with
entry `e`, no assertion is raised, the total decreases by `e.size`, exactly
the node `(p, e)` is erased from the map, the lookups of all other
addresses are unchanged, and the generation and id counters are untouched. -/
theorem remove_mismatch_detection (t : MemoryTracker) (p : Nat) (hp : p ≠ 0) :
    ((t.remove p).2 = 1 ↔ t.live p = false) ∧
      (t.remove p).2 ≤ 1 ∧
      (t.live p = false → (t.remove p).1 = t) ∧
      (∀ e, Map.find ptrLt p t.m_map = some e →
        (t.remove p).2 = 0 ∧
        (t.remove p).1.m_allocated_memory = t.m_allocated_memory - e.m_size ∧
        (p, e) ∈ t.m_map ∧
        (t.remove p).1.m_map = t.m_map.erase (p, e) ∧
        (∀ q, q ≠ p →
          Map.find ptrLt q (t.remove p).1.m_map = Map.find ptrLt q t.m_map) ∧
        (t.remove p).1.m_mark = t.m_mark ∧
        (t.remove p).1.s_alloc_counter = t.s_alloc_counter) := by
  cases hf : Map.find ptrLt p t.m_map with
  | none =>
    simp [MemoryTracker.remove, hp, hf, MemoryTracker.live]
  | some e =>
    simp only [MemoryTracker.remove, hp, if_false, hf, MemoryTracker.live, Option.isSome_some]
    refine ⟨by simp, by simp, by simp, ?_⟩
    intro e' he'
    simp only [Option.some.injEq] at he'
    subst he'
    exact ⟨by simp, by simp, find_some_mem p e _ hf, erase_eq_list_erase p e _ hf,
      fun q hq => find_erase_of_ne p q _ hq, by simp, by simp⟩

theorem remove_mismatch_detection_witness :
    (4096 : Nat) ≠ 0 ∧ (oneLive.remove 4096).2 = 1 ∧ (oneLive.remove 8192).2 = 0 ∧
      ((oneLive.remove 4096).2 = 1 ↔ oneLive.live 4096 = false) ∧
      (oneLive.live 4096 = false → (oneLive.remove 4096).1 = oneLive) :=
  ⟨by decide, by decide, by decide,
    (remove_mismatch_detection oneLive 4096 (by decide)).1,
    (remove_mismatch_detection oneLive 4096 (by decide)).2.2.1⟩

/-- C5. Null address is a silent no-op: `add(NULL, size, file, line)` and
`remove(NULL)` return the state they were given (map, total of live bytes,
mark generation and allocation-id counter) and raise no assertion. -/
theorem null_address_noop (t : MemoryTracker) (size : Int) (file : Nat) (line : Int) :
    t.add 0 size file line = t ∧ (t.step (.add 0 size file line)).2 = 0 ∧
      t.remove 0 = (t, 0) ∧ t.step (.remove 0) = (t, 0) := by
  simp [MemoryTracker.add, MemoryTracker.remove, MemoryTracker.step]

/-! ## Allocation ids -/

theorem assignedIds_eq (ops : List Op) : ∀ (t : MemoryTracker), t.s_alloc_counter < 2 ^ 32 →
    assignedIds t ops =
      (List.range (successfulAdds ops)).map fun i => (t.s_alloc_counter + i) % 2 ^ 32 := by
  induction ops with
  | nil => intro t _; rfl
  | cons op ops ih =>
    intro t ht
    cases op with
    | add p size file line =>
      by_cases hp : p = 0
      · have h1 : successfulAdds (Op.add p size file line :: ops) = successfulAdds ops := by
          simp [successfulAdds, Op.isSuccessfulAdd, hp]
        rw [h1]
        simp only [assignedIds, hp, if_true]
        exact ih t ht
      · have h1 : successfulAdds (Op.add p size file line :: ops) = successfulAdds ops + 1 := by
          simp [successfulAdds, Op.isSuccessfulAdd, hp]
        have hc : (t.add p size file line).s_alloc_counter = (t.s_alloc_counter + 1) % 2 ^ 32 := by
          simp [MemoryTracker.add, hp, Entry.create, getAllocID]
        have hlt : (t.add p size file line).s_alloc_counter < 2 ^ 32 := by
          rw [hc]; exact Nat.mod_lt _ (by norm_num)
        rw [h1, List.range_succ_eq_map]
        simp only [assignedIds, hp, if_false, List.map_cons, List.map_map]
        rw [ih _ hlt, hc]
        congr 1
        · simp only [Entry.create, getAllocID, Nat.add_zero]
          exact (Nat.mod_eq_of_lt ht).symm
        · apply List.map_congr_left
          intro i _
          simp only [Function.comp, Nat.succ_eq_add_one]
          omega
    | remove p =>
      have h1 : successfulAdds (Op.remove p :: ops) = successfulAdds ops := by
        simp [successfulAdds, Op.isSuccessfulAdd]
      have hc : (t.step (.remove p)).1.s_alloc_counter = t.s_alloc_counter := by
        simp only [MemoryTracker.step, MemoryTracker.remove]
        split
        · rfl
        · split <;> rfl
      rw [h1]
      simp only [assignedIds]
      rw [ih _ (by rw [hc]; exact ht), hc]
    | markAll =>
      have h1 : successfulAdds (Op.markAll :: ops) = successfulAdds ops := by
        simp [successfulAdds, Op.isSuccessfulAdd]
      rw [h1]
      simp only [assignedIds]
      exact ih _ ht

theorem assignedIds_new (ops : List Op) :
    assignedIds MemoryTracker.new ops =
      (List.range (successfulAdds ops)).map fun i => i % 2 ^ 32 := by
  rw [assignedIds_eq ops MemoryTracker.new (by simp [MemoryTracker.new])]
  simp [MemoryTracker.new]

theorem successfulAdds_distinctAdds (n : Nat) : successfulAdds (distinctAdds n) = n := by
  unfold successfulAdds distinctAdds
  rw [List.filter_eq_self.2]
  · simp
  · intro op hop
    simp only [List.mem_map, List.mem_range] at hop
    obtain ⟨i, _, rfl⟩ := hop
    simp [Op.isSuccessfulAdd]

theorem matched_distinctAdds_aux (n : Nat) : ∀ (k : Nat) (t : MemoryTracker),
    (∀ q, k < q → t.live q = false) →
    Matched t ((List.range' k n).map fun i => Op.add (i + 1) 1 0 0) = true := by
  induction n with
  | zero => intro k t _; rfl
  | succ n ih =>
    intro k t h
    simp only [List.range'_succ, List.map_cons, Matched, Bool.and_eq_true]
    refine ⟨by simp [Op.matched, h (k + 1) (by omega)], ih (k + 1) _ ?_⟩
    intro q hq
    rw [live_eq_false_iff]
    simp only [MemoryTracker.step, MemoryTracker.add, Nat.add_one_ne_zero, if_false]
    rw [find_insert_of_ne _ _ _ _ (by omega)]
    exact (live_eq_false_iff t q).1 (h q (by omega))

theorem ids_not_nodup_of_wrap (N : Nat) (hN : 0 < N) :
    ¬ ((List.range (N + 1)).map fun i => i % N).Nodup := by
  rw [List.range_succ, List.map_append, List.nodup_append]
  intro h
  have h3 := h.2.2
  refine h3 (a := 0) ?_ ?_
  · simp only [List.mem_map, List.mem_range]
    exact ⟨0, hN, Nat.zero_mod N⟩
  · simp

/-- C3 (as amended). Id monotonicity: for every sequence of calls made on a
fresh registry that contains at most `2^32` successful `add` calls, the
allocation ids given to the created entries are `0, 1, 2, ...` in call order;
they are strictly increasing and pairwise distinct. -/
theorem alloc_ids_strictly_increasing (ops : List Op) (h : successfulAdds ops ≤ 2 ^ 32) :
    assignedIds MemoryTracker.new ops = List.range (successfulAdds ops) ∧
      (assignedIds MemoryTracker.new ops).Pairwise (· < ·) ∧
      (assignedIds MemoryTracker.new ops).Nodup := by
  have heq : assignedIds MemoryTracker.new ops = List.range (successfulAdds ops) := by
    rw [assignedIds_new]
    conv_rhs => rw [← List.map_id (List.range (successfulAdds ops))]
    apply List.map_congr_left
    intro i hi
    simp only [List.mem_range] at hi
    simp only [id_eq]
    exact Nat.mod_eq_of_lt (by omega)
  rw [heq]
  exact ⟨rfl, List.pairwise_lt_range _, List.nodup_range _⟩

theorem alloc_ids_strictly_increasing_witness :
    successfulAdds exampleCalls ≤ 2 ^ 32 ∧
      assignedIds MemoryTracker.new exampleCalls = [0, 1, 2] ∧
      assignedIds MemoryTracker.new exampleCalls = List.range (successfulAdds exampleCalls) ∧
      (assignedIds MemoryTracker.new exampleCalls).Pairwise (· < ·) ∧
      (assignedIds MemoryTracker.new exampleCalls).Nodup :=
  ⟨by decide, by decide, alloc_ids_strictly_increasing exampleCalls (by decide)⟩

/-- C3 (counterexample). The `2^32 + 1` calls `add(1, ...)`, ..., `add(2^32 + 1, ...)`
on pairwise distinct addresses are all successful and matched, yet the ids
they are given are neither pairwise distinct nor strictly increasing: the
`uint32_t` counter has wrapped and the last call is given id 0 again, the id
of the first. -/
theorem alloc_ids_wrap_counterexample :
    Matched MemoryTracker.new (distinctAdds (2 ^ 32 + 1)) = true ∧
      successfulAdds (distinctAdds (2 ^ 32 + 1)) = 2 ^ 32 + 1 ∧
      ¬ (assignedIds MemoryTracker.new (distinctAdds (2 ^ 32 + 1))).Nodup ∧
      ¬ (assignedIds MemoryTracker.new (distinctAdds (2 ^ 32 + 1))).Pairwise (· < ·) := by
  have hnd : ¬ (assignedIds MemoryTracker.new (distinctAdds (2 ^ 32 + 1))).Nodup := by
    rw [assignedIds_new, successfulAdds_distinctAdds]
    exact ids_not_nodup_of_wrap (2 ^ 32) (by norm_num)
  refine ⟨?_, successfulAdds_distinctAdds _, hnd, ?_⟩
  · have h := matched_distinctAdds_aux (2 ^ 32 + 1) 0 MemoryTracker.new (fun _ _ => rfl)
    rw [← List.range_eq_range'] at h
    exact h
  · intro hp
    exact hnd (hp.imp (fun hab => Nat.ne_of_lt hab))

/-! ## The size fields of the aggregated reports -/

theorem sizeFields_natCast (n : Nat) :
    sizeFields (n : Int) =
      if 1000000 ≤ n then
        [((n / 1000000 : Nat) : Int), ((n % 1000000 / 1000 : Nat) : Int),
          ((n &&& 1000 : Nat) : Int)]
      else if 1000 ≤ n then [((n / 1000 : Nat) : Int), ((n % 1000 : Nat) : Int)]
      else [(n : Int)] := by
  unfold sizeFields
  have e1 : ((n : Int) ≥ 1000000) ↔ 1000000 ≤ n := by omega
  have e2 : ((n : Int) ≥ 1000) ↔ 1000 ≤ n := by omega
  simp only [e1, e2]
  have d1 : (n : Int).tdiv 1000000 = ((n / 1000000 : Nat) : Int) := rfl
  have d2 : ((n : Int).tmod 1000000).tdiv 1000 = ((n % 1000000 / 1000 : Nat) : Int) := rfl
  have d3 : Int.land (n : Int) 1000 = ((n &&& 1000 : Nat) : Int) := rfl
  have d4 : (n : Int).tdiv 1000 = ((n / 1000 : Nat) : Int) := rfl
  have d5 : (n : Int).tmod 1000 = ((n % 1000 : Nat) : Int) := rfl
  rw [d1, d2, d3, d4, d5]

/-- C6. Size-formatting rule: both aggregated reports print the byte total of
every group through `sizeFields`, and for a non-negative total `n` the fields
are `n / 1000000`, `(n % 1000000) / 1000` and `n AND 1000` when
`n ≥ 1000000`, the fields `n / 1000` and `n % 1000` when `1000 ≤ n < 1000000`,
and the single field `n` below 1000; the total 1234567 gives 1, 234 and 640,
not 567. -/
theorem size_formatting_rule :
    (∀ n : Nat, sizeFields (n : Int) =
      if 1000000 ≤ n then
        [((n / 1000000 : Nat) : Int), ((n % 1000000 / 1000 : Nat) : Int),
          ((n &&& 1000 : Nat) : Int)]
      else if 1000 ≤ n then [((n / 1000 : Nat) : Int), ((n % 1000 : Nat) : Int)]
      else [(n : Int)]) ∧
    (∀ (mem : Nat → List Nat) (t : MemoryTracker),
      t.dumpTruncatedPerFileLine mem =
        [.dumping] ++
        ((fileLineReportMap mem t.m_map).map fun g =>
          LogLine.perFileLine (if g.1.file ≠ 0 then mem g.1.file else unknownLabel) g.1.line
            (sizeFields g.2)) ++
        [.complete]) ∧
    (∀ (mem : Nat → List Nat) (t : MemoryTracker),
      t.dumpTruncatedPerFile mem =
        [.dumping] ++
        ((fileReportMap t.m_map).map fun g =>
          LogLine.perFile (cstr mem g.1) (sizeFields g.2)) ++
        [.complete]) ∧
    sizeFields 1234567 = [1, 234, 640] ∧
    (MemoryTracker.new.add 4096 1234567 0 0).dumpTruncatedPerFileLine (fun _ => []) =
      [.dumping, .perFileLine unknownLabel 0 [1, 234, 640], .complete] ∧
    (MemoryTracker.new.add 4096 1234567 0 0).dumpTruncatedPerFile (fun _ => []) =
      [.dumping, .perFile none [1, 234, 640], .complete] ∧
    (1234567 : Nat) % 1000 = 567 :=
  ⟨sizeFields_natCast, fun _ _ => rfl, fun _ _ => rfl, by decide, by decide, by decide,
    by decide⟩

/-! ## The report ordered by allocation id -/

theorem find_eq_none_iff {V : Type} (k : Nat) (m : List (Nat × V)) :
    Map.find ptrLt k m = none ↔ k ∉ m.map Prod.fst := by
  induction m with
  | nil => simp [Map.find]
  | cons n rest ih =>
    obtain ⟨k', w⟩ := n
    simp only [Map.find, equiv_ptrLt, List.map_cons, List.mem_cons, not_or]
    by_cases hk : k = k'
    · simp [hk]
    · simp [hk, ih]

theorem mem_insert {K V : Type} (lt : K → K → Bool) (k : K) (v : V) (m : List (K × V))
    (x : K × V) (h : x ∈ Map.insert lt k v m) : x = (k, v) ∨ x ∈ m := by
  induction m with
  | nil => simpa [Map.insert] using h
  | cons n rest ih =>
    obtain ⟨k', w⟩ := n
    simp only [Map.insert] at h
    split at h
    · simpa using h
    · split at h
      · rcases List.mem_cons.1 h with h1 | h1
        · exact Or.inr (h1 ▸ List.mem_cons_self _ _)
        · rcases ih h1 with h2 | h2
          · exact Or.inl h2
          · exact Or.inr (List.mem_cons_of_mem _ h2)
      · exact Or.inr h

theorem insert_perm {V : Type} (k : Nat) (v : V) (m : List (Nat × V))
    (h : k ∉ m.map Prod.fst) : (Map.insert ptrLt k v m).Perm ((k, v) :: m) := by
  induction m with
  | nil => simp [Map.insert]
  | cons n rest ih =>
    obtain ⟨k', w⟩ := n
    simp only [List.map_cons, List.mem_cons, not_or] at h
    simp only [Map.insert]
    split
    · exact List.Perm.refl _
    · split
      · exact ((ih h.2).cons (k', w)).trans (List.Perm.swap _ _ _)
      · rename_i h1 h2
        exfalso
        unfold ptrLt at h1 h2
        simp only [decide_eq_true_eq, not_lt] at h1 h2
        omega

theorem insert_keys_sorted {V : Type} (k : Nat) (v : V) (m : List (Nat × V))
    (h : (m.map Prod.fst).Pairwise (· < ·)) :
    ((Map.insert ptrLt k v m).map Prod.fst).Pairwise (· < ·) := by
  induction m with
  | nil => simp [Map.insert]
  | cons n rest ih =>
    obtain ⟨k', w⟩ := n
    simp only [List.map_cons, List.pairwise_cons] at h
    simp only [Map.insert]
    split
    · rename_i h1
      unfold ptrLt at h1
      simp only [decide_eq_true_eq] at h1
      simp only [List.map_cons, List.pairwise_cons, List.mem_cons]
      refine ⟨?_, h.1, h.2⟩
      rintro a (rfl | ha)
      · exact h1
      · exact Nat.lt_trans h1 (h.1 a ha)
    · split
      · rename_i h1 h2
        unfold ptrLt at h2
        simp only [decide_eq_true_eq] at h2
        simp only [List.map_cons, List.pairwise_cons]
        refine ⟨?_, ih h.2⟩
        intro a ha
        obtain ⟨x, hx, rfl⟩ := List.mem_map.1 ha
        rcases mem_insert _ _ _ _ _ hx with h3 | h3
        · rw [h3]; exact h2
        · exact h.1 x.1 (List.mem_map_of_mem _ h3)
      · simp only [List.map_cons, List.pairwise_cons]
        exact h

theorem allocOrder_foldl (xs : EntryTable) : ∀ (acc : List (Nat × Entry)),
    (acc.map Prod.fst).Pairwise (· < ·) →
    (acc.map Prod.fst ++ xs.map fun n => n.2.m_alloc_id).Nodup →
    (xs.foldl (fun alloc_order_map n => Map.insert ptrLt n.2.m_alloc_id n.2 alloc_order_map)
        acc).Perm (acc ++ xs.map fun n => (n.2.m_alloc_id, n.2)) ∧
      ((xs.foldl (fun alloc_order_map n => Map.insert ptrLt n.2.m_alloc_id n.2 alloc_order_map)
        acc).map Prod.fst).Pairwise (· < ·) := by
  induction xs with
  | nil => intro acc hs _; simpa using hs
  | cons x xs ih =>
    intro acc hs hnd
    simp only [List.map_cons, List.foldl_cons]
    have hx : x.2.m_alloc_id ∉ acc.map Prod.fst := by
      intro hmem
      rw [List.nodup_append] at hnd
      exact hnd.2.2 hmem (by simp)
    have hperm := insert_perm x.2.m_alloc_id x.2 acc hx
    have hnd' : ((Map.insert ptrLt x.2.m_alloc_id x.2 acc).map Prod.fst ++
        xs.map fun n => n.2.m_alloc_id).Nodup := by
      have hp2 : ((Map.insert ptrLt x.2.m_alloc_id x.2 acc).map Prod.fst ++
          xs.map fun n => n.2.m_alloc_id).Perm
          (acc.map Prod.fst ++ (x :: xs).map fun n => n.2.m_alloc_id) := by
        simp only [List.map_cons]
        refine ((hperm.map Prod.fst).append_right _).trans ?_
        simp only [List.map_cons, List.cons_append]
        exact List.perm_middle.symm
      exact hp2.nodup_iff.2 hnd
    obtain ⟨h1, h2⟩ := ih _ (insert_keys_sorted _ _ _ hs) hnd'
    refine ⟨h1.trans ?_, h2⟩
    refine (hperm.append_right _).trans ?_
    simp only [List.cons_append]
    exact List.perm_middle.symm

theorem entryLines_report (hdr ftr : List LogLine) (es : List Entry)
    (f : Entry → LogLine) (hh : entryLines hdr = []) (hf : entryLines ftr = [])
    (hb : ∀ e, entryLines [f e] = [f e]) :
    entryLines (hdr ++ es.map f ++ ftr) = es.map f := by
  unfold entryLines at *
  rw [List.filter_append, List.filter_append, hh, hf]
  simp only [List.nil_append, List.append_nil]
  rw [List.filter_eq_self]
  intro l hl
  obtain ⟨e, _, rfl⟩ := List.mem_map.1 hl
  have := hb e
  simp only [List.filter_cons, List.filter_nil] at this
  split at this
  · assumption
  · simp at this

/-- C8. Ordered-by-allocation-order report: for every table whose entries
have pairwise distinct allocation ids, the entry lines of
`dumpSortedByAllocationOrder` are the lines of a rearrangement `order` of the
entries of the table (each entry exactly once), and the ids in `order` are
strictly increasing, whatever the address order of the table. -/
theorem alloc_order_report (mem : Nat → List Nat) (t : MemoryTracker)
    (h : (t.m_map.map fun n => n.2.m_alloc_id).Nodup) :
    ∃ order : List Entry,
      order.Perm (t.m_map.map Prod.snd) ∧
      (order.map Entry.m_alloc_id).Pairwise (· < ·) ∧
      entryLines (t.dumpSortedByAllocationOrder mem) =
        order.map fun e => LogLine.block (cstr mem e.m_file) e.m_line e.m_alloc_id e.m_size := by
  obtain ⟨hperm, hsorted⟩ := allocOrder_foldl t.m_map [] (by simp) (by simpa using h)
  simp only [List.nil_append] at hperm
  have hkey : ∀ x ∈ allocOrderMap t.m_map, x.1 = x.2.m_alloc_id := by
    intro x hx
    have hx' := hperm.subset hx
    obtain ⟨n, _, rfl⟩ := List.mem_map.1 hx'
    rfl
  refine ⟨(allocOrderMap t.m_map).map Prod.snd, ?_, ?_, ?_⟩
  · have := hperm.map Prod.snd
    simpa [allocOrderMap, List.map_map, Function.comp] using this
  · have e1 : ((allocOrderMap t.m_map).map Prod.snd).map Entry.m_alloc_id =
        (allocOrderMap t.m_map).map Prod.fst := by
      rw [List.map_map]
      apply List.map_congr_left
      intro x hx
      exact (hkey x hx).symm
    rw [e1]
    exact hsorted
  · unfold MemoryTracker.dumpSortedByAllocationOrder
    have e2 : ((allocOrderMap t.m_map).map fun n =>
        LogLine.block (cstr mem n.2.m_file) n.2.m_line n.2.m_alloc_id n.2.m_size) =
        ((allocOrderMap t.m_map).map Prod.snd).map fun e =>
          LogLine.block (cstr mem e.m_file) e.m_line e.m_alloc_id e.m_size := by
      rw [List.map_map]; rfl
    simp only [e2]
    apply entryLines_report
    · split <;> rfl
    · split <;> rfl
    · intro e; rfl

theorem alloc_order_report_witness :
    (idsFiveTwoNine.m_map.map fun n => n.2.m_alloc_id) = [5, 2, 9] ∧
      (idsFiveTwoNine.m_map.map fun n => n.2.m_alloc_id).Nodup ∧
      entryLines (idsFiveTwoNine.dumpSortedByAllocationOrder exampleNames) =
        [.block none 0 2 20, .block none 0 5 10, .block none 0 9 30] ∧
      ∃ order : List Entry,
        order.Perm (idsFiveTwoNine.m_map.map Prod.snd) ∧
        (order.map Entry.m_alloc_id).Pairwise (· < ·) ∧
        entryLines (idsFiveTwoNine.dumpSortedByAllocationOrder exampleNames) =
          order.map fun e =>
            LogLine.block (cstr exampleNames e.m_file) e.m_line e.m_alloc_id e.m_size :=
  ⟨by decide, by decide, by decide, alloc_order_report exampleNames idsFiveTwoNine (by decide)⟩

/-! ## The aggregated reports -/

/-- C7. Aggregation by (file, line), evaluated. On the three entries
(100, "a.cpp", 10), (200, "a.cpp", 10), (50, "b.cpp", 5) the report has
exactly the two groups ("a.cpp", 10) -> 300 and ("b.cpp", 5) -> 50. On two
entries without a file, (100, NULL, 1) and (50, NULL, 2), whose keys
`operator ==` tells apart, `operator <` orders neither key below the other:
the report has the single group (NULL, 1) -> 150, printed as line 1 of
"unknown", instead of one group per pair. -/
theorem per_file_line_null_file_lines_merged :
    fileLineReportMap exampleNames (MemoryTracker.new.run threeAllocations).m_map =
      [({ file := 256, line := 10 }, 300), ({ file := 272, line := 5 }, 50)] ∧
    FileLineReport.eq { file := 0, line := 1 } { file := 0, line := 2 } = false ∧
    FileLineReport.lt exampleNames { file := 0, line := 1 } { file := 0, line := 2 } = false ∧
    FileLineReport.lt exampleNames { file := 0, line := 2 } { file := 0, line := 1 } = false ∧
    fileLineReportMap exampleNames (MemoryTracker.new.run unknownOrigins).m_map =
      [({ file := 0, line := 1 }, 150)] ∧
    (MemoryTracker.new.run unknownOrigins).dumpTruncatedPerFileLine exampleNames =
      [.dumping, .perFileLine unknownLabel 1 [150], .complete] := by
  refine ⟨by decide, by decide, by decide, by decide, by decide, by decide⟩

/-- C9. Aggregation by file, evaluated. The container of `dumpTruncatedPerFile`
is keyed by the `const char*` itself. With the name "a.cpp" stored at
addresses 256 and 288 and "b.cpp" at address 272, three entries with the file
pointers 256, 288 and 272 give three groups in pointer order: "a.cpp" -> 100,
"b.cpp" -> 50, "a.cpp" -> 200. The file "a.cpp" has two groups and the names
are not in increasing order. -/
theorem per_file_groups_by_pointer :
    exampleNames 256 = exampleNames 288 ∧
    fileReportMap (MemoryTracker.new.run sameNameTwice).m_map =
      [(256, 100), (272, 50), (288, 200)] ∧
    (MemoryTracker.new.run sameNameTwice).dumpTruncatedPerFile exampleNames =
      [.dumping,
       .perFile (some [97, 46, 99, 112, 112]) [100],
       .perFile (some [98, 46, 99, 112, 112]) [50],
       .perFile (some [97, 46, 99, 112, 112]) [200],
       .complete] ∧
    strcmp (exampleNames 272) (exampleNames 288) > 0 := by
  refine ⟨by decide, by decide, by decide, by decide⟩

/-! ## The first checkpoint -/

theorem step_mark_of_allocOrFree (t : MemoryTracker) (op : Op) (h : op.isAllocOrFree = true) :
    (t.step op).1.m_mark = t.m_mark ∧
      ((∀ n ∈ t.m_map, n.2.m_mark = 0) → ∀ n ∈ (t.step op).1.m_map, n.2.m_mark = 0) := by
  cases op with
  | add p size file line =>
    simp only [MemoryTracker.step, MemoryTracker.add]
    by_cases hp : p = 0
    · simp [hp]
    · simp only [hp, if_false, true_and]
      intro h0 n hn
      rcases mem_insert _ _ _ _ _ hn with h1 | h1
      · rw [h1]; rfl
      · exact h0 n h1
  | remove p =>
    simp only [MemoryTracker.step, MemoryTracker.remove]
    by_cases hp : p = 0
    · simp [hp]
    · simp only [hp, if_false]
      cases hf : Map.find ptrLt p t.m_map with
      | none => simp
      | some e =>
        simp only [true_and]
        intro h0 n hn
        rw [erase_eq_list_erase p e _ hf] at hn
        exact h0 n (List.mem_of_mem_erase hn)
  | markAll => simp [Op.isAllocOrFree] at h

theorem run_mark_of_allocOrFree (ops : List Op) : ∀ (t : MemoryTracker),
    (∀ op ∈ ops, op.isAllocOrFree = true) →
    (t.run ops).m_mark = t.m_mark ∧
      ((∀ n ∈ t.m_map, n.2.m_mark = 0) → ∀ n ∈ (t.run ops).m_map, n.2.m_mark = 0) := by
  induction ops with
  | nil => intro t _; exact ⟨rfl, fun h => h⟩
  | cons op ops ih =>
    intro t h
    have h1 := step_mark_of_allocOrFree t op (h op (List.mem_cons_self _ _))
    have h2 := ih (t.step op).1 (fun o ho => h o (List.mem_cons_of_mem _ ho))
    simp only [MemoryTracker.run]
    exact ⟨h2.1.trans h1.1, fun h0 => h2.2 (h1.2 h0)⟩

theorem unmarked_markAll_of_mark_zero (t : MemoryTracker) (h : t.m_mark = 0) :
    t.markAll.unmarked = [] := by
  unfold MemoryTracker.unmarked MemoryTracker.markAll
  rw [List.filter_eq_nil_iff]
  intro n hn
  simp only [List.mem_map] at hn
  obtain ⟨m, _, rfl⟩ := hn
  simp [Entry.getMark, Entry.mark, h]

/-- C10. Mark/sweep exclusion after one checkpoint: starting from a fresh
registry, after any sequence of matched `add`/`remove` calls that leaves at
least one live entry, followed by one `markAll` call, `dumpUnmarked` skips
every entry: it emits its heading line only, with no entry line and no size
line. -/
theorem first_checkpoint_reports_nothing (w : Nat) (mem : Nat → List Nat) (heap : Nat → Nat)
    (ops : List Op) (hops : ∀ op ∈ ops, op.isAllocOrFree = true)
    (_hm : Matched MemoryTracker.new ops = true)
    (_hlive : (MemoryTracker.new.run ops).m_map ≠ []) :
    (MemoryTracker.new.run ops).markAll.unmarked = [] ∧
      entryLines ((MemoryTracker.new.run ops).markAll.dumpUnmarked w mem heap) = [] ∧
      (MemoryTracker.new.run ops).markAll.dumpUnmarked w mem heap = [.dumping] := by
  have hmark : (MemoryTracker.new.run ops).m_mark = 0 :=
    (run_mark_of_allocOrFree ops MemoryTracker.new hops).1
  have hnil := unmarked_markAll_of_mark_zero _ hmark
  have hdump : (MemoryTracker.new.run ops).markAll.dumpUnmarked w mem heap = [.dumping] := by
    simp [MemoryTracker.dumpUnmarked, MemoryTracker.unmarkedSize, hnil, entryBlocks]
  refine ⟨hnil, ?_, hdump⟩
  rw [hdump]
  rfl

theorem first_checkpoint_reports_nothing_witness :
    (∀ op ∈ exampleCalls, op.isAllocOrFree = true) ∧
      Matched MemoryTracker.new exampleCalls = true ∧
      (MemoryTracker.new.run exampleCalls).m_map ≠ [] ∧
      (MemoryTracker.new.run exampleCalls).markAll.unmarked = [] ∧
      entryLines ((MemoryTracker.new.run exampleCalls).markAll.dumpUnmarked 64 exampleNames
        fun _ => 0) = [] ∧
      (MemoryTracker.new.run exampleCalls).markAll.dumpUnmarked 64 exampleNames (fun _ => 0) =
        [.dumping] :=
  ⟨by decide, by decide, by decide,
    first_checkpoint_reports_nothing 64 exampleNames (fun _ => 0) exampleCalls
      (by decide) (by decide) (by decide)⟩

/-! ## Conservation of bytes by the aggregated reports -/

theorem groupTotal_modify {K : Type} (lt : K → K → Bool) (k : K) (s : Int)
    (m : List (K × Int)) (v : Int) (h : Map.find lt k m = some v) :
    groupTotal (Map.modify lt k (fun x => x + s) m) = groupTotal m + s := by
  induction m with
  | nil => simp [Map.find] at h
  | cons n rest ih =>
    obtain ⟨k', w⟩ := n
    simp only [Map.find] at h
    simp only [Map.modify]
    split
    · simp only [groupTotal, List.map_cons, List.sum_cons]; omega
    · rename_i hne
      simp only [hne, if_false] at h
      have ih' := ih h
      simp only [groupTotal, List.map_cons, List.sum_cons] at ih' ⊢
      omega

theorem groupTotal_insert {K : Type} (lt : K → K → Bool) (k : K) (s : Int)
    (m : List (K × Int)) (h : Map.find lt k m = none) :
    groupTotal (Map.insert lt k s m) = groupTotal m + s := by
  induction m with
  | nil => simp [Map.insert, groupTotal]
  | cons n rest ih =>
    obtain ⟨k', w⟩ := n
    simp only [Map.find] at h
    split at h
    · simp at h
    · rename_i hne
      have ih' := ih h
      simp only [Map.insert]
      split
      · simp only [groupTotal, List.map_cons, List.sum_cons]; omega
      · split
        · simp only [groupTotal, List.map_cons, List.sum_cons] at ih' ⊢
          omega
        · rename_i h1 h2
          exfalso
          apply hne
          simp [Map.equiv, h1, h2]

theorem groupTotal_foldl {K : Type} (lt : K → K → Bool) (key : Entry → K) (xs : EntryTable) :
    ∀ (acc : List (K × Int)),
    groupTotal (xs.foldl (fun report_map n =>
      match Map.find lt (key n.2) report_map with
      | some _ => Map.modify lt (key n.2) (fun s => s + n.2.m_size) report_map
      | none => Map.insert lt (key n.2) n.2.m_size report_map) acc) =
      groupTotal acc + sumSizes xs := by
  induction xs with
  | nil => intro acc; simp [sumSizes]
  | cons x xs ih =>
    intro acc
    simp only [List.foldl_cons]
    rw [ih]
    have hs : sumSizes (x :: xs) = x.2.m_size + sumSizes xs := by
      simp [sumSizes]
    rw [hs]
    cases hf : Map.find lt (key x.2) acc with
    | none =>
      simp only
      rw [groupTotal_insert lt _ _ _ hf]; omega
    | some v =>
      simp only
      rw [groupTotal_modify lt _ _ _ v hf]; omega

theorem groupTotal_aggregate {K : Type} (lt : K → K → Bool) (key : Entry → K)
    (m : EntryTable) :
    groupTotal (aggregate lt key m) = sumSizes m := by
  unfold aggregate
  rw [groupTotal_foldl]
  simp [groupTotal]

/-- C18. Aggregation conserves bytes: for every table, the group totals built
by `dumpTruncatedPerFileLine` and those built by `dumpTruncatedPerFile` both
add up to the sum of `size` over all entries of the table, hence to each
other and, when the total-bytes invariant holds, to `m_allocated_memory`. -/
theorem aggregation_conserves_bytes (mem : Nat → List Nat) (t : MemoryTracker) :
    groupTotal (fileLineReportMap mem t.m_map) = sumSizes t.m_map ∧
      groupTotal (fileReportMap t.m_map) = sumSizes t.m_map ∧
      groupTotal (fileLineReportMap mem t.m_map) = groupTotal (fileReportMap t.m_map) ∧
      (TotalOk t →
        groupTotal (fileLineReportMap mem t.m_map) = t.m_allocated_memory ∧
        groupTotal (fileReportMap t.m_map) = t.m_allocated_memory) := by
  have h1 : groupTotal (fileLineReportMap mem t.m_map) = sumSizes t.m_map :=
    groupTotal_aggregate _ _ _
  have h2 : groupTotal (fileReportMap t.m_map) = sumSizes t.m_map :=
    groupTotal_aggregate _ _ _
  refine ⟨h1, h2, h1.trans h2.symm, fun h => ?_⟩
  unfold TotalOk at h
  exact ⟨h1.trans h.symm, h2.trans h.symm⟩

theorem aggregation_conserves_bytes_witness :
    TotalOk (MemoryTracker.new.run sameNameTwice) ∧
      groupTotal (fileLineReportMap exampleNames (MemoryTracker.new.run sameNameTwice).m_map) =
        350 ∧
      groupTotal (fileReportMap (MemoryTracker.new.run sameNameTwice).m_map) = 350 ∧
      (MemoryTracker.new.run sameNameTwice).m_allocated_memory = 350 ∧
      groupTotal (fileLineReportMap exampleNames (MemoryTracker.new.run sameNameTwice).m_map) =
        (MemoryTracker.new.run sameNameTwice).m_allocated_memory :=
  ⟨by unfold TotalOk; decide, by decide, by decide, by decide,
    ((aggregation_conserves_bytes exampleNames (MemoryTracker.new.run sameNameTwice)).2.2.2
      (by unfold TotalOk; decide)).1⟩

/-! ## The comparison operators of the group key -/

theorem strcmp_eq_zero_iff (x y : List Nat) : strcmp x y = 0 ↔ x = y := by
  induction x generalizing y with
  | nil => cases y <;> simp [strcmp]
  | cons a as ih =>
    cases y with
    | nil => simp [strcmp]
    | cons b bs =>
      simp only [strcmp]
      by_cases h1 : a < b
      · simp [h1]; intro h; omega
      · by_cases h2 : b < a
        · simp [h1, h2]; intro h; omega
        · have : a = b := by omega
          subst this
          simp [ih]

theorem strcmp_swap (x y : List Nat) : strcmp y x = -strcmp x y := by
  induction x generalizing y with
  | nil => cases y <;> simp [strcmp]
  | cons a as ih =>
    cases y with
    | nil => simp [strcmp]
    | cons b bs =>
      simp only [strcmp]
      by_cases h1 : a < b
      · have h2 : ¬ b < a := by omega
        simp [h1, h2]
      · by_cases h2 : b < a
        · simp [h1, h2]
        · simp [h1, h2, ih]

theorem lt_eq_naturalLt_of_file (mem : Nat → List Nat) (a b : FileLineReport)
    (h : a.file ≠ 0 ∨ b.file ≠ 0) :
    FileLineReport.lt mem a b = FileLineReport.naturalLt mem a b := by
  unfold FileLineReport.lt FileLineReport.naturalLt
  by_cases ha : a.file = 0
  · have hb : b.file ≠ 0 := by
      rcases h with h | h
      · exact absurd ha h
      · exact h
    simp [ha, hb]
  · have ha1 : (a.file == 0) = false := by simpa using ha
    have ha2 : (a.file != 0) = true := by simpa using ha
    by_cases hb : b.file = 0
    · simp [ha, hb, ha1]
    · have hb1 : (b.file == 0) = false := by simpa using hb
      have hb2 : (b.file != 0) = true := by simpa using hb
      by_cases hc : strcmp (mem a.file) (mem b.file) = 0
      · have he := (strcmp_eq_zero_iff _ _).1 hc
        rw [he] at hc
        simp [ha, hb, ha1, ha2, hb1, hb2, he, hc]
      · have he : mem a.file ≠ mem b.file := fun he => hc ((strcmp_eq_zero_iff _ _).2 he)
        simp [ha, hb, ha1, ha2, hb1, hb2, hc, he]

theorem gt_eq_lt_swap_of_file (mem : Nat → List Nat) (a b : FileLineReport)
    (h : a.file = 0 ↔ b.file = 0) :
    FileLineReport.gt mem a b = FileLineReport.lt mem b a := by
  unfold FileLineReport.gt FileLineReport.lt
  by_cases ha : a.file = 0
  · have hb : b.file = 0 := h.1 ha
    simp [ha, hb]
  · have hb : b.file ≠ 0 := fun hb => ha (h.2 hb)
    simp only [ha, hb, if_false]
    rw [strcmp_swap (mem a.file) (mem b.file)]
    by_cases hc : strcmp (mem a.file) (mem b.file) = 0
    · simp [hc]
    · have hc' : -strcmp (mem a.file) (mem b.file) ≠ 0 := by omega
      simp only [hc, hc', ne_eq, not_false_eq_true, if_true]
      congr 1
      apply propext
      constructor <;> intro h' <;> omega

/-- C16. Group ordering, evaluated. The keys (NULL, 1) and (NULL, 2) are
distinct and the natural order on (file-name, line) pairs puts the first
below the second (same file, smaller line), but `operator <` answers false
in both directions: it returns at `file == NULL` without comparing the
lines, so it is not total on distinct pairs. With a file on either side it
gives the answer of the natural order, here on (NULL, 7) < ("a.cpp", 3),
("a.cpp", 10) < ("b.cpp", 5) and ("a.cpp", 3) < ("a.cpp", 10). -/
theorem operator_lt_ignores_lines_of_null_files :
    ({ file := 0, line := 1 } : FileLineReport) ≠ { file := 0, line := 2 } ∧
    FileLineReport.naturalLt exampleNames { file := 0, line := 1 } { file := 0, line := 2 } =
      true ∧
    FileLineReport.lt exampleNames { file := 0, line := 1 } { file := 0, line := 2 } = false ∧
    FileLineReport.lt exampleNames { file := 0, line := 2 } { file := 0, line := 1 } = false ∧
    FileLineReport.lt exampleNames { file := 0, line := 7 } { file := 256, line := 3 } = true ∧
    FileLineReport.lt exampleNames { file := 256, line := 10 } { file := 272, line := 5 } = true ∧
    FileLineReport.lt exampleNames { file := 256, line := 3 } { file := 288, line := 10 } =
      true := by
  refine ⟨by decide, by decide, by decide, by decide, by decide, by decide, by decide⟩

/-- C20. Comparator consistency, evaluated. For a = (NULL, 0) and
b = ("a.cpp", 10), `a > b` is true although `b < a` is false: `operator >`
starts with the same two tests as `operator <`, so a key without a file is
both below and above every key with a file. -/
theorem operator_gt_not_converse_of_lt :
    FileLineReport.gt exampleNames { file := 0, line := 0 } { file := 256, line := 10 } = true ∧
    FileLineReport.lt exampleNames { file := 256, line := 10 } { file := 0, line := 0 } = false ∧
    FileLineReport.lt exampleNames { file := 0, line := 0 } { file := 256, line := 10 } = true ∧
    FileLineReport.gt exampleNames { file := 256, line := 10 } { file := 0, line := 0 } =
      false := by
  refine ⟨by decide, by decide, by decide, by decide⟩

/-! ## The third size field -/

theorem and_1000_dvd (n : Nat) : 8 ∣ (n &&& 1000) := by
  apply Nat.dvd_of_mod_eq_zero
  have h := Nat.and_pow_two_sub_one_eq_mod (n &&& 1000) 3
  have h7 : (n &&& 1000) &&& (2 ^ 3 - 1) = 0 := by
    rw [Nat.and_assoc]
    have : (1000 : Nat) &&& (2 ^ 3 - 1) = 0 := by decide
    rw [this, Nat.and_zero]
  rw [h7] at h
  exact h.symm

theorem and_1000_submask (n : Nat) : (n &&& 1000) &&& 1000 = n &&& 1000 := by
  rw [Nat.and_assoc, Nat.and_self]

/-- C19. Bound on the third size field: for every byte total `n ≥ 1000000`
the third field printed by the aggregated reports is `n AND 1000`; it is a
multiple of 8, at most 1000 and a sub-mask of 1000, so it has at most three
digits unless it equals 1000, a value it does take (at `n = 1049576`); and
the three fields do not determine `n`: the totals 1000000 and 1000001 print
the same fields 1, 0 and 576. -/
theorem third_size_field_bound (n : Nat) (h : 1000000 ≤ n) :
    sizeFields (n : Int) =
        [((n / 1000000 : Nat) : Int), ((n % 1000000 / 1000 : Nat) : Int),
          ((n &&& 1000 : Nat) : Int)] ∧
      8 ∣ (n &&& 1000) ∧
      (n &&& 1000) ≤ 1000 ∧
      (n &&& 1000) &&& 1000 = n &&& 1000 ∧
      ((n &&& 1000) ≤ 999 ↔ (n &&& 1000) ≠ 1000) ∧
      (1000000 ≤ 1049576 ∧ 1049576 &&& 1000 = 1000) ∧
      ((1000000 : Nat) ≠ 1000001 ∧ sizeFields 1000000 = sizeFields 1000001 ∧
        sizeFields 1000000 = [1, 0, 576]) := by
  have hle : (n &&& 1000) ≤ 1000 := Nat.and_le_right
  refine ⟨?_, and_1000_dvd n, hle, and_1000_submask n, by omega, by decide,
    by decide, by decide, by decide⟩
  rw [sizeFields_natCast]
  simp [h]

theorem third_size_field_bound_witness :
    1000000 ≤ 1234567 ∧
      sizeFields ((1234567 : Nat) : Int) = [1, 234, 640] ∧
      8 ∣ (1234567 &&& 1000) ∧ (1234567 &&& 1000) ≤ 1000 :=
  ⟨by decide, by decide, (third_size_field_bound 1234567 (by decide)).2.1,
    (third_size_field_bound 1234567 (by decide)).2.2.1⟩

/-! ## Frame of `markAll`, `add` and `remove` -/

theorem mem_insert_of_mem {K V : Type} (lt : K → K → Bool) (k : K) (v : V) (m : List (K × V))
    (x : K × V) (h : x ∈ m) : x ∈ Map.insert lt k v m := by
  induction m with
  | nil => simp at h
  | cons n rest ih =>
    obtain ⟨k', w⟩ := n
    simp only [Map.insert]
    split
    · exact List.mem_cons_of_mem _ h
    · split
      · rcases List.mem_cons.1 h with h1 | h1
        · exact h1 ▸ List.mem_cons_self _ _
        · exact List.mem_cons_of_mem _ (ih h1)
      · exact h

theorem mem_of_mem_erase {K V : Type} (lt : K → K → Bool) (k : K) (m : List (K × V))
    (x : K × V) (h : x ∈ Map.erase lt k m) : x ∈ m := by
  induction m with
  | nil => simp [Map.erase] at h
  | cons n rest ih =>
    obtain ⟨k', w⟩ := n
    simp only [Map.erase] at h
    split at h
    · exact List.mem_cons_of_mem _ h
    · rcases List.mem_cons.1 h with h1 | h1
      · exact h1 ▸ List.mem_cons_self _ _
      · exact List.mem_cons_of_mem _ (ih h1)

theorem mem_erase_of_ne (p : Nat) (m : EntryTable) (x : Nat × Entry) (h : x ∈ m)
    (hx : x.1 ≠ p) : x ∈ Map.erase ptrLt p m := by
  induction m with
  | nil => simp at h
  | cons n rest ih =>
    obtain ⟨k', w⟩ := n
    simp only [Map.erase, equiv_ptrLt]
    rcases List.mem_cons.1 h with h1 | h1
    · subst h1
      have : ¬ p = k' := fun e => hx e.symm
      simp [this]
    · split
      · exact h1
      · exact List.mem_cons_of_mem _ (ih h1)

/-- C17. Frame of `markAll`, `add` and `remove`: `markAll` keeps the nodes of
the map in place with their address, origin file, origin line, size and
allocation id, keeps the total of live bytes and the id counter, and
increases `m_mark` by exactly 1; `add` keeps `m_mark`, keeps every node
that was in the map as it was, and adds at most the node it creates;
`remove` keeps `m_mark`, adds no node and keeps every node of another
address as it was. -/
theorem markAll_add_remove_frame (t : MemoryTracker) :
    (t.markAll.m_map.map nodeOrigin = t.m_map.map nodeOrigin ∧
      t.markAll.m_allocated_memory = t.m_allocated_memory ∧
      t.markAll.s_alloc_counter = t.s_alloc_counter ∧
      t.markAll.m_mark = t.m_mark + 1) ∧
    (∀ (p : Nat) (size : Int) (file : Nat) (line : Int),
      (t.add p size file line).m_mark = t.m_mark ∧
      (∀ n ∈ t.m_map, n ∈ (t.add p size file line).m_map) ∧
      (∀ n ∈ (t.add p size file line).m_map,
        n ∈ t.m_map ∨ n = (p, (Entry.create file line size t.s_alloc_counter).1))) ∧
    (∀ p : Nat,
      (t.remove p).1.m_mark = t.m_mark ∧
      (∀ n ∈ (t.remove p).1.m_map, n ∈ t.m_map) ∧
      (∀ n ∈ t.m_map, n.1 ≠ p → n ∈ (t.remove p).1.m_map)) := by
  refine ⟨⟨?_, rfl, rfl, rfl⟩, ?_, ?_⟩
  · simp only [MemoryTracker.markAll, List.map_map]
    apply List.map_congr_left
    intro n _
    rfl
  · intro p size file line
    unfold MemoryTracker.add
    by_cases hp : p = 0
    · simp only [hp, if_true]
      exact ⟨trivial, fun n hn => hn, fun n hn => Or.inl hn⟩
    · simp only [hp, if_false]
      exact ⟨trivial, fun n hn => mem_insert_of_mem _ _ _ _ _ hn,
        fun n hn => (mem_insert _ _ _ _ _ hn).symm⟩
  · intro p
    unfold MemoryTracker.remove
    by_cases hp : p = 0
    · simp only [hp, if_true]
      exact ⟨trivial, fun n hn => hn, fun n hn _ => hn⟩
    · simp only [hp, if_false]
      cases hf : Map.find ptrLt p t.m_map with
      | none => exact ⟨rfl, fun n hn => hn, fun n hn _ => hn⟩
      | some e =>
        exact ⟨rfl, fun n hn => mem_of_mem_erase _ _ _ _ hn,
          fun n hn hne => mem_erase_of_ne _ _ _ hn hne⟩

theorem markAll_add_remove_frame_witness :
    oneLive.markAll.m_map.map nodeOrigin = oneLive.m_map.map nodeOrigin ∧
      oneLive.markAll.m_mark = oneLive.m_mark + 1 ∧
      (∀ n ∈ oneLive.m_map, n ∈ (oneLive.add 4096 100 256 10).m_map) ∧
      (∀ n ∈ oneLive.m_map, n.1 ≠ 4096 → n ∈ (oneLive.remove 4096).1.m_map) :=
  ⟨(markAll_add_remove_frame oneLive).1.1, (markAll_add_remove_frame oneLive).1.2.2.2,
    ((markAll_add_remove_frame oneLive).2.1 4096 100 256 10).2.1,
    ((markAll_add_remove_frame oneLive).2.2 4096).2.2⟩

/-! ## The inclusion test of `dumpUnmarked` -/

theorem entryLines_append (l₁ l₂ : List LogLine) :
    entryLines (l₁ ++ l₂) = entryLines l₁ ++ entryLines l₂ := by
  unfold entryLines
  exact List.filter_append _ _

theorem unmarkedSize_foldl (w : Nat) (xs : EntryTable) : ∀ (acc : Nat),
    (acc : Int) % 2 ^ w = (acc : Int) →
    ((xs.foldl (fun size n => ((size : Int) + n.2.m_size).emod (2 ^ w) |>.toNat) acc : Nat) :
      Int) = ((acc : Int) + sumSizes xs) % 2 ^ w := by
  induction xs with
  | nil => intro acc h; simpa [sumSizes] using h.symm
  | cons x xs ih =>
    intro acc _
    simp only [List.foldl_cons]
    have hpos : (0 : Int) < 2 ^ w := by positivity
    have hnn : 0 ≤ ((acc : Int) + x.2.m_size) % 2 ^ w := Int.emod_nonneg _ (by omega)
    have hcast : ((((acc : Int) + x.2.m_size).emod (2 ^ w)).toNat : Int) =
        ((acc : Int) + x.2.m_size) % 2 ^ w := Int.toNat_of_nonneg hnn
    have hs : sumSizes (x :: xs) = x.2.m_size + sumSizes xs := by simp [sumSizes]
    rw [ih _ (by rw [hcast, Int.emod_emod_of_dvd _ (dvd_refl _)]), hcast, hs,
      Int.emod_add_emod, add_assoc]

theorem mem_unmarked_iff (t : MemoryTracker) (n : Nat × Entry) :
    n ∈ t.unmarked ↔ n ∈ t.m_map ∧ n.2.m_mark ≠ 0 ∧ n.2.m_mark ≠ t.m_mark := by
  unfold MemoryTracker.unmarked Entry.getMark
  rw [List.mem_filter]
  have h0 : (0 == n.2.m_mark) = true ↔ n.2.m_mark = 0 := by
    rw [beq_iff_eq]; exact eq_comm
  have h1 : (t.m_mark == n.2.m_mark) = true ↔ n.2.m_mark = t.m_mark := by
    rw [beq_iff_eq]; exact eq_comm
  simp only [Bool.not_eq_true', Bool.not_eq_true, Bool.or_eq_false_iff, ne_eq]
  rw [← Bool.not_eq_true, ← Bool.not_eq_true, h0, h1]

theorem unmarkedSize_eq (w : Nat) (t : MemoryTracker) :
    (t.unmarkedSize w : Int) = sumSizes t.unmarked % 2 ^ w := by
  unfold MemoryTracker.unmarkedSize
  rw [unmarkedSize_foldl w t.unmarked 0 (by simp)]
  simp

/-- C11, evaluated. After an allocation, a checkpoint, the allocation of a
block of 2 GiB at address 8192 and of 200 bytes at address 4294967296, and a
second checkpoint, the entries at 8192 and at 4294967296 both carry a mark
that is neither 0 nor `m_mark`. For the block of 2 GiB, `(int)entry.size()`
is -2147483648, so `str_len` is negative and is handed to `memcpy`:
`dumpUnmarked` logs the entry line of that block and does not go on. The
entry at 4294967296 passes the inclusion test and is never reported, and no
size total is printed. -/
theorem dumpUnmarked_stops_at_large_block :
    (MemoryTracker.new.run largeBlockBetweenCheckpoints).m_mark = 2 ∧
    (MemoryTracker.new.run largeBlockBetweenCheckpoints).m_map.map
        (fun n => (n.1, n.2.m_size, n.2.m_mark)) =
      [(4096, 100, 1), (8192, 2147483648, 1), (4294967296, 200, 1)] ∧
    ((4294967296, { m_file := 272, m_line := 7, m_alloc_id := 2, m_size := 200, m_mark := 1 }) :
        Nat × Entry) ∈ (MemoryTracker.new.run largeBlockBetweenCheckpoints).unmarked ∧
    toInt32 2147483648 = -2147483648 ∧
    dataLine (fun _ => 0) 8192 2147483648 = none ∧
    (MemoryTracker.new.run largeBlockBetweenCheckpoints).dumpUnmarkedReturns exampleNames
        (fun _ => 0) = false ∧
    entryLines ((MemoryTracker.new.run largeBlockBetweenCheckpoints).dumpUnmarked 64
        exampleNames fun _ => 0) =
      [.blockAt (some [97, 46, 99, 112, 112]) 10 0 4096 100,
       .blockAt (some [98, 46, 99, 112, 112]) 5 1 8192 2147483648] ∧
    (MemoryTracker.new.run largeBlockBetweenCheckpoints).dumpUnmarked 64 exampleNames
        (fun _ => 0) =
      [.dumping,
       .blockAt (some [97, 46, 99, 112, 112]) 10 0 4096 100,
       .data [] [0, 0, 0, 0, 0, 0, 0, 0, 0, 0, 0, 0, 0, 0, 0, 0],
       .blockAt (some [98, 46, 99, 112, 112]) 5 1 8192 2147483648] := by
  refine ⟨by decide, by decide, by decide, by decide, by decide, by decide, by decide,
    by decide⟩

/-! ## Checkpoints -/

/-- C12 (as amended). Just-marked entries at the first checkpoint: in every
state whose generation counter is 0, `markAll` stamps every live entry with
the current generation value and then sets the counter to 1, and a
`dumpUnmarked` call made immediately afterwards reports none of the entries
stamped by that call: it runs to its end and logs its heading line only. -/
theorem just_marked_entries_first_checkpoint (w : Nat) (mem : Nat → List Nat)
    (heap : Nat → Nat) (t : MemoryTracker) (h0 : t.m_mark = 0) :
    (∀ n ∈ t.markAll.m_map, n.2.m_mark = t.m_mark) ∧
      t.markAll.m_mark = 1 ∧
      t.markAll.unmarked = [] ∧
      t.markAll.dumpUnmarkedReturns mem heap = true ∧
      entryLines (t.markAll.dumpUnmarked w mem heap) = [] ∧
      t.markAll.dumpUnmarked w mem heap = [.dumping] := by
  have hstamp : ∀ n ∈ t.markAll.m_map, n.2.m_mark = t.m_mark := by
    intro n hn
    simp only [MemoryTracker.markAll, List.mem_map] at hn
    obtain ⟨m, _, rfl⟩ := hn
    rfl
  have hun : t.markAll.unmarked = [] := unmarked_markAll_of_mark_zero t h0
  have hdump : t.markAll.dumpUnmarked w mem heap = [.dumping] := by
    simp [MemoryTracker.dumpUnmarked, MemoryTracker.unmarkedSize, hun, entryBlocks]
  refine ⟨hstamp, ?_, hun, ?_, ?_, hdump⟩
  · simp [MemoryTracker.markAll, h0]
  · simp [MemoryTracker.dumpUnmarkedReturns, hun, entryBlocks]
  · rw [hdump]; rfl

theorem just_marked_entries_first_checkpoint_witness :
    oneLive.m_mark = 0 ∧ oneLive.markAll.m_map ≠ [] ∧
      (∀ n ∈ oneLive.markAll.m_map, n.2.m_mark = oneLive.m_mark) ∧
      oneLive.markAll.m_mark = 1 ∧
      oneLive.markAll.unmarked = [] ∧
      oneLive.markAll.dumpUnmarkedReturns exampleNames (fun _ => 0) = true ∧
      entryLines (oneLive.markAll.dumpUnmarked 64 exampleNames fun _ => 0) = [] ∧
      oneLive.markAll.dumpUnmarked 64 exampleNames (fun _ => 0) = [.dumping] :=
  ⟨by decide, by decide,
    just_marked_entries_first_checkpoint 64 exampleNames (fun _ => 0) oneLive (by decide)⟩

/-- C12 (counterexample). After an allocation, a checkpoint and a second
allocation, the next `markAll` stamps both entries with the generation 1,
and the `dumpUnmarked` call made right after it reports both of them, the
entry allocated after the first checkpoint included. -/
theorem just_marked_entries_reported_counterexample :
    (MemoryTracker.new.run twoCheckpoints) =
        (MemoryTracker.new.run [.add 4096 100 256 10, .markAll, .add 8192 200 272 5]).markAll ∧
      (MemoryTracker.new.run twoCheckpoints).m_map.map (fun n => (n.1, n.2.m_mark)) =
        [(4096, 1), (8192, 1)] ∧
      (MemoryTracker.new.run twoCheckpoints).m_mark = 2 ∧
      entryLines ((MemoryTracker.new.run twoCheckpoints).dumpUnmarked 64 exampleNames
          fun _ => 0) =
        [.blockAt (some [97, 46, 99, 112, 112]) 10 0 4096 100,
         .blockAt (some [98, 46, 99, 112, 112]) 5 1 8192 200] := by
  refine ⟨by decide, by decide, by decide, by decide⟩

theorem run_append (a b : List Op) : ∀ (t : MemoryTracker), t.run (a ++ b) = (t.run a).run b := by
  induction a with
  | nil => intro t; rfl
  | cons op a ih =>
    intro t
    rw [List.cons_append]
    simp only [MemoryTracker.run]
    exact ih _

theorem step_m_mark (t : MemoryTracker) (op : Op) :
    (t.step op).1.m_mark = t.m_mark + (if op = .markAll then 1 else 0) := by
  cases op with
  | add p size file line =>
    simp only [MemoryTracker.step, MemoryTracker.add, reduceCtorEq, if_false, Nat.add_zero]
    split <;> rfl
  | remove p =>
    simp only [MemoryTracker.step, MemoryTracker.remove, reduceCtorEq, if_false, Nat.add_zero]
    split
    · rfl
    · split <;> rfl
  | markAll => simp [MemoryTracker.step, MemoryTracker.markAll]

theorem run_m_mark (ops : List Op) : ∀ (t : MemoryTracker),
    (t.run ops).m_mark = t.m_mark + ops.count .markAll := by
  induction ops with
  | nil => intro t; simp [MemoryTracker.run]
  | cons op ops ih =>
    intro t
    simp only [MemoryTracker.run]
    rw [ih, step_m_mark, List.count_cons]
    by_cases h : op = .markAll
    · subst h; simp; omega
    · have h' : (op == Op.markAll) = false := by simpa using h
      simp [h, h']

theorem mem_step_allocOrFree (t : MemoryTracker) (op : Op) (h : op.isAllocOrFree = true)
    (n : Nat × Entry) (hn : n ∈ (t.step op).1.m_map) : n ∈ t.m_map ∨ n.2.m_mark = 0 := by
  cases op with
  | add p size file line =>
    simp only [MemoryTracker.step, MemoryTracker.add] at hn
    by_cases hp : p = 0
    · simp only [hp, if_true] at hn
      exact Or.inl hn
    · simp only [hp, if_false] at hn
      rcases mem_insert _ _ _ _ _ hn with h1 | h1
      · exact Or.inr (by rw [h1]; rfl)
      · exact Or.inl h1
  | remove p =>
    simp only [MemoryTracker.step, MemoryTracker.remove] at hn
    by_cases hp : p = 0
    · simp only [hp, if_true] at hn
      exact Or.inl hn
    · simp only [hp, if_false] at hn
      cases hf : Map.find ptrLt p t.m_map with
      | none => rw [hf] at hn; exact Or.inl hn
      | some e => rw [hf] at hn; exact Or.inl (mem_of_mem_erase _ _ _ _ hn)
  | markAll => simp [Op.isAllocOrFree] at h

theorem mem_run_allocOrFree (post : List Op) : ∀ (t : MemoryTracker),
    (∀ op ∈ post, op.isAllocOrFree = true) →
    ∀ n ∈ (t.run post).m_map, n ∈ t.m_map ∨ n.2.m_mark = 0 := by
  induction post with
  | nil => intro t _ n hn; exact Or.inl hn
  | cons op post ih =>
    intro t h n hn
    simp only [MemoryTracker.run] at hn
    rcases ih _ (fun o ho => h o (List.mem_cons_of_mem _ ho)) n hn with h1 | h1
    · exact mem_step_allocOrFree t op (h op (List.mem_cons_self _ _)) n h1
    · exact Or.inr h1

theorem split_at_last_markAll (ops : List Op) :
    (∀ op ∈ ops, op.isAllocOrFree = true) ∨
      ∃ pre post, ops = pre ++ Op.markAll :: post ∧
        ∀ op ∈ post, op.isAllocOrFree = true := by
  induction ops with
  | nil => exact Or.inl (by simp)
  | cons op ops ih =>
    rcases ih with h | ⟨pre, post, hops, hpost⟩
    · by_cases hop : op.isAllocOrFree = true
      · refine Or.inl (fun o ho => ?_)
        rcases List.mem_cons.1 ho with h1 | h1
        · rw [h1]; exact hop
        · exact h o h1
      · have : op = .markAll := by
          cases op <;> simp [Op.isAllocOrFree] at hop ⊢
        subst this
        exact Or.inr ⟨[], ops, rfl, h⟩
    · exact Or.inr ⟨op :: pre, post, by rw [hops]; rfl, hpost⟩

theorem mem_markAll (t : MemoryTracker) (n : Nat × Entry) (hn : n ∈ t.markAll.m_map) :
    n.2.m_mark = t.m_mark ∧
      ∃ e, (n.1, e) ∈ t.m_map ∧ nodeOrigin (n.1, e) = nodeOrigin n := by
  simp only [MemoryTracker.markAll, List.mem_map] at hn
  obtain ⟨m, hm, rfl⟩ := hn
  exact ⟨rfl, m.2, hm, rfl⟩

/-- C13 (as amended). Reported entries and checkpoints: for every sequence of
`add`, `remove` and `markAll` calls on a fresh registry, every entry that
`dumpUnmarked` then reports was live at the latest `markAll` call of the
sequence, that call was at least the second `markAll`, the entry carries the
generation stamped by it, and it has stayed in the map after every call
made since. -/
theorem reported_entry_live_at_latest_checkpoint (ops : List Op) (n : Nat × Entry)
    (hn : n ∈ (MemoryTracker.new.run ops).unmarked) :
    ∃ pre post, ops = pre ++ Op.markAll :: post ∧
      (∀ op ∈ post, op.isAllocOrFree = true) ∧
      1 ≤ pre.count Op.markAll ∧
      n.2.m_mark = pre.count Op.markAll ∧
      (∃ e, (n.1, e) ∈ (MemoryTracker.new.run pre).m_map ∧
        nodeOrigin (n.1, e) = nodeOrigin n) ∧
      ∀ k, n ∈ (MemoryTracker.new.run (pre ++ Op.markAll :: post.take k)).m_map := by
  obtain ⟨hmem, hne0, _⟩ := (mem_unmarked_iff _ n).1 hn
  rcases split_at_last_markAll ops with hall | ⟨pre, post, hops, hpost⟩
  · exact absurd ((run_mark_of_allocOrFree ops MemoryTracker.new hall).2
      (by simp [MemoryTracker.new]) n hmem) hne0
  · refine ⟨pre, post, hops, hpost, ?_⟩
    have hrun : ∀ l, MemoryTracker.new.run (pre ++ Op.markAll :: l) =
        ((MemoryTracker.new.run pre).markAll).run l := by
      intro l
      rw [run_append]
      rfl
    have hlive : ∀ k, n ∈ (MemoryTracker.new.run (pre ++ Op.markAll :: post.take k)).m_map := by
      intro k
      have hsplit : MemoryTracker.new.run ops =
          (MemoryTracker.new.run (pre ++ Op.markAll :: post.take k)).run (post.drop k) := by
        rw [← run_append, hops]
        simp
      rw [hsplit] at hmem
      rcases mem_run_allocOrFree (post.drop k) _
        (fun o ho => hpost o (List.mem_of_mem_drop ho)) n hmem with h1 | h1
      · exact h1
      · exact absurd h1 hne0
    have h0 := hlive 0
    rw [List.take_zero, hrun] at h0
    obtain ⟨hstamp, he⟩ := mem_markAll _ n h0
    have hcount : (MemoryTracker.new.run pre).m_mark = pre.count Op.markAll := by
      rw [run_m_mark]; simp [MemoryTracker.new]
    rw [hcount] at hstamp
    exact ⟨by omega, hstamp, he, hlive⟩

theorem reported_entry_live_at_latest_checkpoint_witness :
    ((8192, { m_file := 272, m_line := 5, m_alloc_id := 1, m_size := 200, m_mark := 1 }) :
        Nat × Entry) ∈ (MemoryTracker.new.run twoCheckpoints).unmarked ∧
      ∃ pre post, twoCheckpoints = pre ++ Op.markAll :: post ∧
        (∀ op ∈ post, op.isAllocOrFree = true) ∧
        1 ≤ pre.count Op.markAll ∧
        (1 : Nat) = pre.count Op.markAll :=
  ⟨by decide,
    (reported_entry_live_at_latest_checkpoint twoCheckpoints
      (8192, { m_file := 272, m_line := 5, m_alloc_id := 1, m_size := 200, m_mark := 1 })
      (by decide)).imp fun _ h => h.imp fun _ h' => ⟨h'.1, h'.2.1, h'.2.2.1, h'.2.2.2.1⟩⟩

/-- C13 (counterexample). In the sequence `add(4096)`, `markAll`, `add(8192)`,
`markAll` the entry at 8192 is reported by `dumpUnmarked` although it has
been live across one `markAll` call only: the sequence has two such calls
and the address was not live when the first of them was made. -/
theorem reported_after_one_checkpoint_counterexample :
    ((8192, { m_file := 272, m_line := 5, m_alloc_id := 1, m_size := 200, m_mark := 1 }) :
        Nat × Entry) ∈ (MemoryTracker.new.run twoCheckpoints).unmarked ∧
      twoCheckpoints = [.add 4096 100 256 10] ++ .markAll :: [.add 8192 200 272 5, .markAll] ∧
      twoCheckpoints.count Op.markAll = 2 ∧
      (MemoryTracker.new.run [.add 4096 100 256 10]).live 8192 = false ∧
      (MemoryTracker.new.run [.add 4096 100 256 10, .markAll, .add 8192 200 272 5]).live 8192 =
        true := by
  refine ⟨by decide, by decide, by decide, by decide, by decide⟩

/-! ## Logging and the lock -/

theorem loggedLines_logs {α : Type} (f : α → LogLine) (l : List α) (rest : List Event) :
    loggedLines ((l.map fun x => Event.log (f x)) ++ rest) = l.map f ++ loggedLines rest := by
  induction l with
  | nil => rfl
  | cons x l ih =>
    simp only [List.map_cons, List.cons_append, loggedLines]
    exact congrArg _ ih

theorem linesUnderLock_free {α : Type} (f : α → LogLine) (l : List α) (rest : List Event) :
    linesUnderLock false ((l.map fun x => Event.log (f x)) ++ rest) =
      linesUnderLock false rest := by
  induction l with
  | nil => rfl
  | cons x l ih =>
    simp only [List.map_cons, List.cons_append, linesUnderLock, Bool.false_eq_true, if_false]
    exact ih

theorem linesUnderLock_held {α : Type} (f : α → LogLine) (l : List α) (rest : List Event) :
    linesUnderLock true ((l.map fun x => Event.log (f x)) ++ rest) =
      l.map f ++ linesUnderLock true rest := by
  induction l with
  | nil => rfl
  | cons x l ih =>
    simp only [List.map_cons, List.cons_append, linesUnderLock, if_true]
    exact congrArg _ ih

theorem linesUnderLock_withSpinLock (held : Bool) (ls : List LogLine) :
    linesUnderLock held (withSpinLock (ls.map .log)) = ls := by
  show linesUnderLock held
    (Event.acquire :: ((ls.map fun x => Event.log (id x)) ++ [.release])) = ls
  simp only [linesUnderLock]
  rw [linesUnderLock_held]
  simp [linesUnderLock]

theorem loggedLines_withSpinLock (ls : List LogLine) :
    loggedLines (withSpinLock (ls.map .log)) = ls := by
  show loggedLines (Event.acquire :: ((ls.map fun x => Event.log (id x)) ++ [.release])) = ls
  simp only [loggedLines]
  rw [loggedLines_logs]
  simp [loggedLines]

theorem linesUnderLock_guarded (held returns : Bool) (ls : List LogLine) :
    linesUnderLock held
      (Event.acquire :: (ls.map .log ++ (if returns = true then [.release] else []))) = ls := by
  show linesUnderLock held (Event.acquire :: ((ls.map fun x => Event.log (id x)) ++
    (if returns = true then [.release] else []))) = ls
  simp only [linesUnderLock]
  rw [linesUnderLock_held]
  cases returns <;> simp [linesUnderLock]

theorem loggedLines_guarded (returns : Bool) (ls : List LogLine) :
    loggedLines
      (Event.acquire :: (ls.map .log ++ (if returns = true then [.release] else []))) = ls := by
  show loggedLines (Event.acquire :: ((ls.map fun x => Event.log (id x)) ++
    (if returns = true then [.release] else []))) = ls
  simp only [loggedLines]
  rw [loggedLines_logs]
  cases returns <;> simp [loggedLines]

theorem linesUnderLock_truncated {α : Type} (f : α → LogLine) (l : List α) :
    linesUnderLock false
      ([.log .dumping] ++ withSpinLock [] ++ (l.map fun x => Event.log (f x)) ++
        [.log .complete]) = [] := by
  show linesUnderLock false (Event.log .dumping :: .acquire :: .release ::
    ((l.map fun x => Event.log (f x)) ++ [.log .complete])) = []
  simp only [linesUnderLock, Bool.false_eq_true, if_false]
  rw [linesUnderLock_free]
  simp [linesUnderLock]

theorem loggedLines_truncated {α : Type} (f : α → LogLine) (l : List α) :
    loggedLines
      ([.log .dumping] ++ withSpinLock [] ++ (l.map fun x => Event.log (f x)) ++
        [.log .complete]) = [.dumping] ++ l.map f ++ [.complete] := by
  show loggedLines (Event.log .dumping :: .acquire :: .release ::
    ((l.map fun x => Event.log (f x)) ++ [.log .complete])) = _
  simp only [loggedLines]
  rw [loggedLines_logs]
  simp [loggedLines]

/-- C14 (as amended). Logging and the lock: `dumpTruncatedPerFileLine` and
`dumpTruncatedPerFile` hand no line to the log sink while the spin lock is
held (the heading is logged before the lock is taken, every other line after
it is released); `dumpDetailed` and `dumpSortedByAllocationOrder` take the
lock on entry and release it on return, so that every line they print is
formatted and logged while the lock is held. -/
theorem lines_logged_under_lock (mem : Nat → List Nat) (heap : Nat → Nat)
    (t : MemoryTracker) :
    (linesUnderLock false (t.dumpTruncatedPerFileLineEvents mem) = [] ∧
      loggedLines (t.dumpTruncatedPerFileLineEvents mem) = t.dumpTruncatedPerFileLine mem) ∧
    (linesUnderLock false (t.dumpTruncatedPerFileEvents mem) = [] ∧
      loggedLines (t.dumpTruncatedPerFileEvents mem) = t.dumpTruncatedPerFile mem) ∧
    (linesUnderLock false (t.dumpDetailedEvents mem heap) = t.dumpDetailed mem heap ∧
      loggedLines (t.dumpDetailedEvents mem heap) = t.dumpDetailed mem heap) ∧
    (linesUnderLock false (t.dumpSortedByAllocationOrderEvents mem) =
        t.dumpSortedByAllocationOrder mem ∧
      loggedLines (t.dumpSortedByAllocationOrderEvents mem) =
        t.dumpSortedByAllocationOrder mem) := by
  exact ⟨⟨linesUnderLock_truncated _ _, loggedLines_truncated _ _⟩,
    ⟨linesUnderLock_truncated _ _, loggedLines_truncated _ _⟩,
    ⟨linesUnderLock_guarded _ _ _, loggedLines_guarded _ _⟩,
    ⟨linesUnderLock_withSpinLock _ _, loggedLines_withSpinLock _⟩⟩

/-- C14 (counterexample). `dumpDetailed` on the empty registry takes the lock,
logs "MemoryTracker No leaks detected!" and only then releases the lock;
with one live entry, `dumpSortedByAllocationOrder` logs its four lines
between taking and releasing the lock. -/
theorem detailed_report_logs_under_lock_counterexample :
    MemoryTracker.new.dumpDetailedEvents exampleNames (fun _ => 0) =
        [.acquire, .log .noLeaks, .release] ∧
      linesUnderLock false (MemoryTracker.new.dumpDetailedEvents exampleNames fun _ => 0) =
        [.noLeaks] ∧
      oneLive.dumpSortedByAllocationOrderEvents exampleNames =
        [.acquire, .log .detected, .log .dumping,
         .log (.block (some [98, 46, 99, 112, 112]) 5 0 8),
         .log .complete, .release] ∧
      linesUnderLock false (oneLive.dumpSortedByAllocationOrderEvents exampleNames) =
        [.detected, .dumping, .block (some [98, 46, 99, 112, 112]) 5 0 8, .complete] := by
  refine ⟨by decide, by decide, by decide, by decide⟩

end Lux
